import Mathlib

/-!
Shallow embedding of the crypto-trading backtest engine.

Numeric values (prices, quantities, cash, rates) are modelled as rationals,
timestamps as integers, and JS optional/undefined fields as `Option`.
Definitions are translated from the repository source:
  * `src/execution/margin_model.js`  (margin / unrealized-PnL model)
  * `src/unnamed/part_000`           (fill model, position ledger, rounding)
  * `src/engine/index.js`            (backtest engine, scheduler, seeded RNG)
-/

/-! ## JS numeric primitives -/

/-- `Math.abs` on a rational. -/
def jsAbs (q : ℚ) : ℚ := if q < 0 then -q else q

/-- `Math.sign` on a rational. -/
def jsign (q : ℚ) : ℤ := if 0 < q then 1 else if q < 0 then -1 else 0

/-- `Math.round(x)` in JS rounds half towards positive infinity: `⌊x + 1/2⌋`. -/
def jsRound (x : ℚ) : ℤ := ⌊x + 1/2⌋

/-- `Number.EPSILON = 2⁻⁵²`. -/
def numberEpsilon : ℚ := 1 / 2 ^ 52

theorem jsAbs_eq_abs (q : ℚ) : jsAbs q = |q| := by
  unfold jsAbs
  split
  · exact (abs_of_neg (by assumption)).symm
  · exact (abs_of_nonneg (le_of_not_lt (by assumption))).symm

/-! ## Margin model — `src/execution/margin_model.js` -/

/-- Engine-level position: signed quantity and average entry price. -/
structure Position where
  qty : ℚ
  avgPrice : ℚ
  deriving DecidableEq

/-- `calculateUnrealizedPnl(position, markPrice)`.
`markPrice = none` models a non-finite / missing mark price, in which case the
source falls back to the position's average price (`safeMark = avgPrice`). -/
def calculateUnrealizedPnl (position : Position) (markPrice : Option ℚ) : ℚ :=
  let safeMark := markPrice.getD position.avgPrice
  position.qty * (safeMark - position.avgPrice)

/-- Result record of `calculateMarginSnapshot`. -/
structure MarginSnapshot where
  markPrice : ℚ
  positionNotional : ℚ
  initialMargin : ℚ
  maintenanceMargin : ℚ
  unrealizedPnl : ℚ
  deriving DecidableEq

/-- `calculateMarginSnapshot({position, markPrice, initialMarginRate, maintenanceMarginRate})`. -/
def calculateMarginSnapshot (position : Position) (markPrice : Option ℚ)
    (initialMarginRate maintenanceMarginRate : ℚ) : MarginSnapshot :=
  let safeMark := markPrice.getD position.avgPrice
  let positionNotional := jsAbs position.qty * jsAbs safeMark
  { markPrice := safeMark
    positionNotional := positionNotional
    initialMargin := positionNotional * max 0 initialMarginRate
    maintenanceMargin := positionNotional * max 0 maintenanceMarginRate
    unrealizedPnl := calculateUnrealizedPnl position (some safeMark) }

/-! ## Claim C10 -/

/-- C10: `unrealizedPnl(position, markPrice) = qty × (markPrice − avgPrice)`, falling
back to `avgPrice` when the mark price is unavailable; `marginSnapshot` returns
`positionNotional = |qty| × |markPrice|`, `initialMargin = positionNotional × max(0, initialRate)`,
`maintenanceMargin = positionNotional × max(0, maintenanceRate)`; and for
position `{qty: 3, avgPrice: 100}`, `markPrice 90`, `initialRate 0.1`, `maintenanceRate 0.05`
it returns `positionNotional = 270`, `initialMargin = 27`, `maintenanceMargin = 13.5`,
`unrealizedPnl = −30`. -/
theorem margin_model_spec (position : Position) (m initialRate maintenanceRate : ℚ) :
    calculateUnrealizedPnl position (some m) = position.qty * (m - position.avgPrice)
    ∧ calculateUnrealizedPnl position none
        = position.qty * (position.avgPrice - position.avgPrice)
    ∧ (calculateMarginSnapshot position (some m) initialRate maintenanceRate).positionNotional
        = |position.qty| * |m|
    ∧ (calculateMarginSnapshot position (some m) initialRate maintenanceRate).initialMargin
        = |position.qty| * |m| * max 0 initialRate
    ∧ (calculateMarginSnapshot position (some m) initialRate maintenanceRate).maintenanceMargin
        = |position.qty| * |m| * max 0 maintenanceRate
    ∧ (calculateMarginSnapshot position (some m) initialRate maintenanceRate).unrealizedPnl
        = position.qty * (m - position.avgPrice)
    ∧ calculateMarginSnapshot ⟨3, 100⟩ (some 90) (1/10) (1/20)
        = ⟨90, 270, 27, 27/2, -30⟩ := by
  refine ⟨rfl, rfl, by simp [calculateMarginSnapshot, jsAbs_eq_abs],
    by simp [calculateMarginSnapshot, jsAbs_eq_abs],
    by simp [calculateMarginSnapshot, jsAbs_eq_abs], rfl, ?_⟩
  unfold calculateMarginSnapshot calculateUnrealizedPnl jsAbs
  norm_num

/-! ## Rounding helpers — `src/unnamed/part_000` (`roundToStep`, `roundToTick`, `roundToLot`)

A missing (`undefined`) or non-positive step returns the value unchanged; the
source adds `Number.EPSILON` before rounding. -/

def roundToStep (value : ℚ) (step : Option ℚ) : ℚ :=
  match step with
  | none => value
  | some s => if s ≤ 0 then value else (jsRound (value / s + numberEpsilon) : ℚ) * s

def roundToTick (price : ℚ) (tickSize : Option ℚ) : ℚ := roundToStep price tickSize

def roundToLot (qty : ℚ) (stepSize : Option ℚ) : ℚ := roundToStep qty stepSize

/-! ## Position ledger — `src/unnamed/part_000` (`class PositionLedger`) -/

/-- `const signedQty = side === 'buy' ? Math.abs(qty) : -Math.abs(qty)`. -/
def signedQty (side : String) (qty : ℚ) : ℚ := if side = "buy" then jsAbs qty else -jsAbs qty

structure PositionLedger where
  qty : ℚ
  avgPrice : ℚ
  realizedPnl : ℚ
  deriving DecidableEq

/-- `PositionLedger.applyFill({side, qty, price, fee})`: returns the updated ledger
together with the realized-PnL delta the source returns. -/
def PositionLedger.applyFill (l : PositionLedger) (side : String) (qty price fee : ℚ) :
    PositionLedger × ℚ :=
  let signedQty := signedQty side qty
  let prevQty := l.qty
  let prevAvg := l.avgPrice
  if prevQty = 0 ∨ jsign prevQty = jsign signedQty then
    let newQty := prevQty + signedQty
    let weighted := jsAbs prevQty * prevAvg + jsAbs signedQty * price
    let realizedDelta := -fee
    (⟨newQty, if newQty = 0 then 0 else weighted / jsAbs newQty, l.realizedPnl + realizedDelta⟩,
      realizedDelta)
  else
    let closingQty := min (jsAbs prevQty) (jsAbs signedQty)
    let realizedDelta :=
      -fee + (if 0 < prevQty then (price - prevAvg) * closingQty
              else (prevAvg - price) * closingQty)
    let remaining := prevQty + signedQty
    let newAvg :=
      if remaining = 0 then 0
      else if jsign remaining = jsign prevQty then prevAvg
      else price
    (⟨remaining, newAvg, l.realizedPnl + realizedDelta⟩, realizedDelta)

/-! ## Order book and slippage — `src/unnamed/part_000` -/

structure Level where
  price : ℚ
  qty : ℚ
  deriving DecidableEq

/-- `normalizeBookSide(levels)`: keep levels with positive quantity, sort ascending
by price (JS `Array.prototype.sort` is stable; insertion sort with a reflexive
relation is stable as well). `none` models a missing / non-array side. -/
def normalizeBookSide (levels : Option (List Level)) : List Level :=
  List.insertionSort (fun a b => a.price ≤ b.price)
    ((levels.getD []).filter (fun level => decide (0 < level.qty)))

/-- Slippage models supported by `slippageImpact`; an unrecognized / missing model
contributes 0 and is represented by passing `none` where the source allows it. -/
inductive SlippageModel where
  | simple_fixed (fixed : ℚ)
  | pct_of_spread (pct : ℚ)
  | liquidity_based (base k : ℚ)
  deriving DecidableEq

/-- `slippageImpact({model, side, spread, qty, avgVolume})`. -/
def slippageImpact (model : Option SlippageModel) (side : String) (spread qty avgVolume : ℚ) :
    ℚ :=
  let direction : ℚ := if side = "buy" then 1 else -1
  match model with
  | none => 0
  | some (.simple_fixed fixed) => direction * fixed
  | some (.pct_of_spread pct) => direction * spread * pct
  | some (.liquidity_based base k) =>
      let denom := if 0 < avgVolume then avgVolume else 1
      direction * (base + k * (jsAbs qty / denom))

/-! ## Fill model — `src/unnamed/part_000` (`class FillModel`) -/

structure FillConstraints where
  tickSize : Option ℚ
  stepSize : Option ℚ
  minNotional : Option ℚ
  minQty : Option ℚ
  maxQty : Option ℚ
  deriving DecidableEq

structure Fees where
  maker : ℚ
  taker : ℚ
  deriving DecidableEq

structure Fill where
  orderId : String
  timestamp : ℤ
  side : String
  qty : ℚ
  price : ℚ
  executedNotional : ℚ
  fee : ℚ
  feeRate : ℚ
  liquidity : String
  realizedPnlDelta : ℚ
  deriving DecidableEq

structure Order where
  orderId : String
  side : String
  qty : ℚ
  remainingQty : ℚ
  price : ℚ
  mode : String
  status : String
  createdAt : ℤ
  activeAt : ℤ
  expiresAt : Option ℤ
  cancelRequestedAt : Option ℤ
  cancelEffectiveAt : Option ℤ
  fills : List Fill
  deriving DecidableEq

/-- The mutable state of a `FillModel` instance (constraints/fees/latency options
plus the open-order table, the order-id counter and the position ledger). -/
structure FillModel where
  constraints : FillConstraints
  fees : Fees
  defaultSlippageModel : SlippageModel
  defaultCancelLatencyMs : ℤ
  orderLatencyMs : ℤ
  orders : List Order
  nextId : ℕ
  ledger : PositionLedger
  deriving DecidableEq

/-- `_validateOrder(qty, priceHint)` result: `ok` carries the lot-rounded quantity,
`reject` the rejection reason and the detail fields the source attaches. -/
inductive ValidationResult where
  | ok (roundedQty : ℚ)
  | reject (reason : String) (qty : Option ℚ) (notional : Option ℚ)
  deriving DecidableEq

def FillModel.validateOrder (fm : FillModel) (qty : ℚ) (priceHint : Option ℚ) :
    ValidationResult :=
  let roundedQty := roundToLot qty fm.constraints.stepSize
  if roundedQty ≤ 0 then .reject "invalid_qty" none none
  else if fm.constraints.minQty.isSome ∧ roundedQty < fm.constraints.minQty.getD 0 then
    .reject "min_qty_violation" (some roundedQty) none
  else if fm.constraints.maxQty.isSome ∧ fm.constraints.maxQty.getD 0 < roundedQty then
    .reject "max_qty_violation" (some roundedQty) none
  else if priceHint.isSome ∧ fm.constraints.minNotional.isSome ∧
      roundedQty * priceHint.getD 0 < fm.constraints.minNotional.getD 0 then
    .reject "min_notional_violation" (some roundedQty) (some (roundedQty * priceHint.getD 0))
  else .ok roundedQty

structure Book where
  asks : Option (List Level)
  bids : Option (List Level)
  deriving DecidableEq

structure BookFillResult where
  fills : List Fill
  remainingQty : ℚ
  ledger : PositionLedger
  deriving DecidableEq

/-- One step of the `_bookFill` level walk: whether the level price satisfies the
(optional) limit price for the given side. -/
def levelPriceMatch (side : String) (limitPrice : Option ℚ) (level : Level) : Bool :=
  match limitPrice with
  | none => true
  | some lp => if side = "buy" then decide (level.price ≤ lp) else decide (lp ≤ level.price)

/-- The loop body of `_bookFill`, walking the normalized levels in order and
consuming each level up to its quantity. The source `continue`s (rather than
breaks) on a non-matching level or an exhausted remainder. -/
def bookWalk (fm : FillModel) (side : String) (limitPrice : Option ℚ) (timestamp : ℤ)
    (orderId : String) (forceTaker : Bool) :
    List Level → ℚ → PositionLedger → BookFillResult
  | [], remaining, ledger => ⟨[], remaining, ledger⟩
  | level :: rest, remaining, ledger =>
    if levelPriceMatch side limitPrice level = false ∨ remaining ≤ 0 then
      bookWalk fm side limitPrice timestamp orderId forceTaker rest remaining ledger
    else
      let executedQty := min remaining level.qty
      let executedPrice := roundToTick level.price fm.constraints.tickSize
      let executedNotional := executedQty * executedPrice
      let feeRate := if forceTaker then fm.fees.taker else fm.fees.maker
      let fee := executedNotional * feeRate
      let applied := ledger.applyFill side executedQty executedPrice fee
      let fill : Fill :=
        ⟨orderId, timestamp, side, executedQty, executedPrice, executedNotional, fee, feeRate,
          if forceTaker then "taker" else "maker", applied.2⟩
      let recur :=
        bookWalk fm side limitPrice timestamp orderId forceTaker rest
          (remaining - executedQty) applied.1
      ⟨fill :: recur.fills, recur.remainingQty, recur.ledger⟩

/-- `_bookFill({side, qty, book, limitPrice, timestamp, orderId, forceTaker})`.
For a sell the normalized (ascending) bids are re-sorted descending by price. -/
def FillModel.bookFill (fm : FillModel) (side : String) (qty : ℚ) (book : Book)
    (limitPrice : Option ℚ) (timestamp : ℤ) (orderId : String) (forceTaker : Bool) :
    BookFillResult :=
  let levels :=
    if side = "buy" then normalizeBookSide book.asks
    else List.insertionSort (fun a b => b.price ≤ a.price) (normalizeBookSide book.bids)
  bookWalk fm side limitPrice timestamp orderId forceTaker levels qty fm.ledger

/-- The `market` argument of the fill model: reference prices and liquidity stats. -/
structure MarketRef where
  lastPrice : Option ℚ
  midPrice : Option ℚ
  price : Option ℚ
  spread : Option ℚ
  avgVolume : Option ℚ
  deriving DecidableEq

/-- `market?.lastPrice ?? market?.midPrice ?? market?.price`. -/
def marketRefPrice (market : Option MarketRef) : Option ℚ :=
  market.bind (fun m => (m.lastPrice.or m.midPrice).or m.price)

/-- `_booklessFill({side, qty, market, orderId, timestamp, model})`: execute the
remainder against a reference price plus slippage; with no finite reference
price available nothing fills. -/
def FillModel.booklessFill (fm : FillModel) (side : String) (qty : ℚ)
    (market : Option MarketRef) (orderId : String) (timestamp : ℤ)
    (model : Option SlippageModel) : BookFillResult :=
  match marketRefPrice market with
  | none => ⟨[], qty, fm.ledger⟩
  | some refPrice =>
    let spread := (market.bind (fun m => m.spread)).getD 0
    let avgVolume := (market.bind (fun m => m.avgVolume)).getD qty
    let slip := slippageImpact (some (model.getD fm.defaultSlippageModel)) side spread qty
      avgVolume
    let executedPrice := roundToTick (refPrice + slip) fm.constraints.tickSize
    let executedNotional := executedPrice * qty
    let fee := executedNotional * fm.fees.taker
    let applied := fm.ledger.applyFill side qty executedPrice fee
    ⟨[⟨orderId, timestamp, side, qty, executedPrice, executedNotional, fee, fm.fees.taker,
        "taker", applied.2⟩], 0, applied.1⟩

/-- Result of `executeMarketOrder`: either the validation rejection (returned, not
thrown) or the executed summary with its fills. -/
inductive MarketOrderResult where
  | rejected (reason : String) (qty : Option ℚ) (notional : Option ℚ)
  | executed (status : String) (orderId : String)
      (requestedQty filledQty remainingQty : ℚ) (fills : List Fill)
  deriving DecidableEq

/-- `executeMarketOrder({side, qty, timestamp, orderId, orderbook, market, slippageModel})`,
returning the result together with the updated fill-model state. -/
def FillModel.executeMarketOrder (fm : FillModel) (side : String) (qty : ℚ) (timestamp : ℤ)
    (orderId : Option String) (orderbook : Option Book) (market : Option MarketRef)
    (slippageModel : Option SlippageModel) : MarketOrderResult × FillModel :=
  match fm.validateOrder qty (marketRefPrice market) with
  | .reject reason q n => (.rejected reason q n, fm)
  | .ok roundedQty =>
    let id := orderId.getD ("mkt-" ++ toString fm.nextId)
    let fm1 := if orderId.isSome then fm else { fm with nextId := fm.nextId + 1 }
    let bookResult := fm1.bookFill side roundedQty (orderbook.getD ⟨none, none⟩)
      none timestamp id true
    let fm2 := { fm1 with ledger := bookResult.ledger }
    let afterFallback :=
      if 0 < bookResult.remainingQty then
        let fallback := fm2.booklessFill side bookResult.remainingQty market id timestamp
          slippageModel
        (bookResult.fills ++ fallback.fills, fallback.remainingQty,
          { fm2 with ledger := fallback.ledger })
      else (bookResult.fills, bookResult.remainingQty, fm2)
    (.executed (if afterFallback.2.1 = 0 then "filled" else "partial") id roundedQty
      (roundedQty - afterFallback.2.1) afterFallback.2.1 afterFallback.1, afterFallback.2.2)

/-! ## String scratch facts used to evaluate side conditions -/

theorem sellNeBuy : ("sell" : String) ≠ "buy" := by decide

theorem buyEqBuy : ("buy" : String) = "buy" := by decide

theorem buyNeSell : ("buy" : String) ≠ "sell" := by decide

/-! ## Claim C4 -/

/-- C4: `applyFill` returns the realized P&L delta of the fill: for a same-direction
or flat-to-open fill the new average price is the notional-weighted blend and the
delta is exactly `−fee`; for a direction-reducing or flipping fill the delta is the
P&L realized on `min(|priorQty|, |fillQty|)` at `(fillPrice − avgPrice)` signed by the
prior position's direction, minus fee; on a full sign flip the new average price
equals the fill price; when quantity lands at exactly zero the average price resets
to zero. -/
theorem applyFill_spec (l : PositionLedger) (side : String) (q p f : ℚ) :
    ((l.qty = 0 ∨ jsign l.qty = jsign (signedQty side q)) →
      (l.applyFill side q p f).2 = -f
      ∧ (l.applyFill side q p f).1.qty = l.qty + signedQty side q
      ∧ (l.applyFill side q p f).1.avgPrice =
          (if l.qty + signedQty side q = 0 then 0
           else (|l.qty| * l.avgPrice + |signedQty side q| * p) / |l.qty + signedQty side q|))
    ∧ (¬ (l.qty = 0 ∨ jsign l.qty = jsign (signedQty side q)) →
      (l.applyFill side q p f).2 =
        (if 0 < l.qty then (1 : ℚ) else -1)
          * ((p - l.avgPrice) * min |l.qty| |signedQty side q|) - f
      ∧ (l.applyFill side q p f).1.qty = l.qty + signedQty side q
      ∧ (l.qty + signedQty side q ≠ 0 ∧ jsign (l.qty + signedQty side q) ≠ jsign l.qty →
          (l.applyFill side q p f).1.avgPrice = p)
      ∧ (l.qty + signedQty side q = 0 → (l.applyFill side q p f).1.avgPrice = 0)) := by
  constructor
  · intro h
    refine ⟨?_, ?_, ?_⟩ <;>
      simp only [PositionLedger.applyFill, if_pos h, jsAbs_eq_abs]
  · intro h
    refine ⟨?_, ?_, ?_, ?_⟩
    · by_cases hq : 0 < l.qty <;>
        simp [PositionLedger.applyFill, if_neg h, hq, jsAbs_eq_abs] <;>
        ring
    · simp only [PositionLedger.applyFill, if_neg h]
    · intro hz
      simp only [PositionLedger.applyFill, if_neg h, if_neg hz.1, if_neg hz.2]
    · intro hz
      simp only [PositionLedger.applyFill, if_neg h, if_pos hz]

theorem applyFill_spec_witness :
    ((⟨0, 0, 0⟩ : PositionLedger).applyFill "buy" 2 10 (1/2)).2 = -(1/2)
    ∧ ((⟨2, 10, 0⟩ : PositionLedger).applyFill "sell" 3 8 0).1.avgPrice = 8
    ∧ ((⟨2, 10, 0⟩ : PositionLedger).applyFill "sell" 3 8 0).2
        = (8 - 10) * min 2 3 - 0 := by
  have h1 := (applyFill_spec ⟨0, 0, 0⟩ "buy" 2 10 (1/2)).1 (Or.inl rfl)
  have h2 := (applyFill_spec ⟨2, 10, 0⟩ "sell" 3 8 0).2
    (by norm_num [jsign, signedQty, jsAbs, sellNeBuy])
  refine ⟨h1.1, h2.2.2.1 ⟨by norm_num [signedQty, jsAbs, sellNeBuy], ?_⟩, ?_⟩
  · norm_num [jsign, signedQty, jsAbs, sellNeBuy]
  · rw [h2.1]
    norm_num [signedQty, jsAbs_eq_abs, sellNeBuy]

/-! ## Claim C5 -/

def fmC5 : FillModel :=
  ⟨⟨some (1/10), none, none, none, none⟩, ⟨0, 1/1000⟩, .simple_fixed 1, 0, 0, [], 1, ⟨0, 0, 0⟩⟩

def bookC5 : Book := ⟨some [⟨100, 1⟩], none⟩

def marketC5 : MarketRef := ⟨some 101, none, none, none, none⟩

/-- C5: a market buy order for 3 units against a book with one ask level of 1 unit
at price 100 (tick size 0.1, taker fee 0.1%), reference price 101 with fixed
slippage +1, yields exactly two fills, `{qty 1, price 100}` then `{qty 2, price 102}`,
both at the taker fee rate, and the result is `filled` with remaining quantity 0. -/
theorem market_order_fill_example :
    (fmC5.executeMarketOrder "buy" 3 0 none (some bookC5) (some marketC5) none).1
      = .executed "filled" "mkt-1" 3 3 0
          [⟨"mkt-1", 0, "buy", 1, 100, 100, 1/10, 1/1000, "taker", -(1/10)⟩,
           ⟨"mkt-1", 0, "buy", 2, 102, 204, 51/250, 1/1000, "taker", -(51/250)⟩] := by
  norm_num [fmC5, bookC5, marketC5, FillModel.executeMarketOrder, FillModel.validateOrder,
    FillModel.bookFill, FillModel.booklessFill, bookWalk, normalizeBookSide, levelPriceMatch,
    marketRefPrice, roundToLot, roundToTick, roundToStep, jsRound, numberEpsilon,
    slippageImpact, PositionLedger.applyFill, signedQty, jsAbs, jsign, min_def,
    List.insertionSort, List.orderedInsert, List.filter,
    show "mkt-" ++ toString 1 = "mkt-1" from by decide]

/-! ## Claim C9 -/

/-- C9: a failed validation is returned as a rejection result (`invalid_qty`,
`min_qty_violation`, `max_qty_violation`, `min_notional_violation`) rather than
thrown; the rejected order produces no fills and leaves the fill-model state —
in particular the position ledger — unchanged; and an otherwise-valid order whose
lot-rounded quantity × price hint is below the configured minimum notional is
rejected with reason `min_notional_violation`. -/
theorem order_rejection_spec :
    (∀ (fm : FillModel) (side : String) (qty : ℚ) (ts : ℤ) (oid : Option String)
        (ob : Option Book) (market : Option MarketRef) (sm : Option SlippageModel)
        (reason : String) (q n : Option ℚ),
      fm.validateOrder qty (marketRefPrice market) = .reject reason q n →
      fm.executeMarketOrder side qty ts oid ob market sm = (.rejected reason q n, fm))
    ∧ (∀ (fm : FillModel) (qty p mn : ℚ),
        fm.constraints.minNotional = some mn →
        ¬ roundToLot qty fm.constraints.stepSize ≤ 0 →
        ¬ (fm.constraints.minQty.isSome ∧
            roundToLot qty fm.constraints.stepSize < fm.constraints.minQty.getD 0) →
        ¬ (fm.constraints.maxQty.isSome ∧
            fm.constraints.maxQty.getD 0 < roundToLot qty fm.constraints.stepSize) →
        roundToLot qty fm.constraints.stepSize * p < mn →
        fm.validateOrder qty (some p)
          = .reject "min_notional_violation" (some (roundToLot qty fm.constraints.stepSize))
              (some (roundToLot qty fm.constraints.stepSize * p))) := by
  constructor
  · intro fm side qty ts oid ob market sm reason q n h
    simp only [FillModel.executeMarketOrder, h]
  · intro fm qty p mn hmn h1 h2 h3 h4
    simp only [FillModel.validateOrder, if_neg h1, if_neg h2, if_neg h3]
    rw [if_pos]
    · simp
    · exact ⟨rfl, by rw [hmn]; exact rfl, by simpa [hmn] using h4⟩

def fmC9 : FillModel :=
  ⟨⟨none, none, some 10, none, none⟩, ⟨0, 0⟩, .simple_fixed 0, 0, 0, [], 1, ⟨0, 0, 0⟩⟩

theorem order_rejection_spec_witness :
    fmC9.validateOrder 1 (some 5) = .reject "min_notional_violation" (some 1) (some 5)
    ∧ fmC9.executeMarketOrder "buy" 1 0 none none (some ⟨some 5, none, none, none, none⟩)
        none = (.rejected "min_notional_violation" (some 1) (some 5), fmC9) := by
  have hv := order_rejection_spec.2 fmC9 1 5 10 rfl (by norm_num [roundToLot, roundToStep, fmC9])
    (by norm_num [fmC9]) (by norm_num [fmC9]) (by norm_num [roundToLot, roundToStep, fmC9])
  have hv5 : fmC9.validateOrder 1 (some 5)
      = .reject "min_notional_violation" (some 1) (some 5) := by
    have hr : roundToLot 1 fmC9.constraints.stepSize = 1 := by
      norm_num [roundToLot, roundToStep, fmC9]
    rw [hv]
    rw [hr]
    norm_num
  refine ⟨hv5, order_rejection_spec.1 fmC9 "buy" 1 0 none none
    (some ⟨some 5, none, none, none, none⟩) none "min_notional_violation"
    (some 1) (some 5) ?_⟩
  simpa [marketRefPrice] using hv5

/-! ## Limit-order lifecycle — `src/unnamed/part_000` -/

/-- Result of `submitLimitOrder`. -/
inductive SubmitResult where
  | rejectedSubmit (reason : String) (qty : Option ℚ) (notional : Option ℚ)
  | accepted (orderId : String) (order : Order)
  deriving DecidableEq

/-- `submitLimitOrder({side, qty, price, mode, ttlMs, timestamp, orderId})`. -/
def FillModel.submitLimitOrder (fm : FillModel) (side : String) (qty price : ℚ)
    (mode : String) (ttlMs : Option ℤ) (timestamp : ℤ) (orderId : Option String) :
    SubmitResult × FillModel :=
  let roundedPrice := roundToTick price fm.constraints.tickSize
  match fm.validateOrder qty (some roundedPrice) with
  | .reject reason q n => (.rejectedSubmit reason q n, fm)
  | .ok roundedQty =>
    let id := orderId.getD ("lmt-" ++ toString fm.nextId)
    let fm1 := if orderId.isSome then fm else { fm with nextId := fm.nextId + 1 }
    let order : Order :=
      ⟨id, side, roundedQty, roundedQty, roundedPrice, mode, "open", timestamp,
        timestamp + fm.orderLatencyMs, ttlMs.map (fun ttl => timestamp + ttl),
        none, none, []⟩
    (.accepted id order, { fm1 with orders := fm1.orders ++ [order] })

/-- `requestCancel(orderId, timestamp, latencyMs)`: records a pending cancellation
on the open order; it only becomes effective after the latency. -/
def FillModel.requestCancel (fm : FillModel) (orderId : String) (timestamp : ℤ)
    (latencyMs : ℤ) : FillModel :=
  { fm with
      orders := fm.orders.map (fun o =>
        if o.orderId = orderId ∧ o.status = "open" then
          { o with cancelRequestedAt := some timestamp,
                   cancelEffectiveAt := some (timestamp + max 0 latencyMs) }
        else o) }

/-- A market event as seen by the fill model's `processMarketEvent`. -/
structure LimitMarketEvent where
  timestamp : ℤ
  bestAsk : Option ℚ
  bestBid : Option ℚ
  orderbook : Option Book
  asks : Option (List Level)
  bids : Option (List Level)
  deriving DecidableEq

/-- The crossing test of `_executeLimitOrder`: `(buy) bestAsk ≤ limit price`,
`(sell) bestBid ≥ limit price`; a missing best quote (JS `NaN` comparison)
never crosses. -/
def orderCrossed (order : Order) (ev : LimitMarketEvent) : Bool :=
  if order.side = "buy" then
    match ev.bestAsk with
    | some a => decide (a ≤ order.price)
    | none => false
  else
    match ev.bestBid with
    | some b => decide (order.price ≤ b)
    | none => false

/-- `_executeLimitOrder(order, marketEvent)`: returns the updated order, the fills
produced, and the updated ledger. A passive order only fills when crossed;
an aggressive one always walks the book (bounded by its limit price). -/
def FillModel.executeLimitOrder (fm : FillModel) (order : Order) (ev : LimitMarketEvent) :
    Order × List Fill × PositionLedger :=
  if orderCrossed order ev = false ∧ order.mode = "passive" then (order, [], fm.ledger)
  else
    let book := ev.orderbook.getD ⟨ev.asks, ev.bids⟩
    let result := fm.bookFill order.side order.remainingQty book (some order.price)
      ev.timestamp order.orderId (order.mode = "aggressive")
    if result.fills = [] then (order, [], result.ledger)
    else
      let order' := { order with
        fills := order.fills ++ result.fills,
        remainingQty := result.remainingQty,
        status := if result.remainingQty ≤ 0 then "filled" else order.status }
      (order', result.fills, result.ledger)

structure Cancellation where
  orderId : String
  reason : String
  timestamp : ℤ
  deriving DecidableEq

/-- Outcome of evaluating one tracked order at a market event. -/
structure OrderStep where
  order : Order
  fills : List Fill
  cancellations : List Cancellation
  ledger : PositionLedger
  deriving DecidableEq

/-- The per-order body of `processMarketEvent`'s loop: skip non-open or
not-yet-active orders, then apply — in this order — effective cancellation
(`user_cancel`), TTL expiry (`ttl_timeout`), and only then a fill attempt. -/
def FillModel.processOneOrder (fm : FillModel) (ev : LimitMarketEvent) (order : Order) :
    OrderStep :=
  if order.status ≠ "open" then ⟨order, [], [], fm.ledger⟩
  else if ev.timestamp < order.activeAt then ⟨order, [], [], fm.ledger⟩
  else if order.cancelEffectiveAt.isSome ∧ order.cancelEffectiveAt.getD 0 ≤ ev.timestamp then
    ⟨{ order with status := "cancelled" }, [],
      [⟨order.orderId, "user_cancel", ev.timestamp⟩], fm.ledger⟩
  else if order.expiresAt.isSome ∧ order.expiresAt.getD 0 ≤ ev.timestamp then
    ⟨{ order with status := "cancelled" }, [],
      [⟨order.orderId, "ttl_timeout", ev.timestamp⟩], fm.ledger⟩
  else
    let r := fm.executeLimitOrder order ev
    ⟨r.1, r.2.1, [], r.2.2⟩

structure SweepResult where
  fills : List Fill
  cancellations : List Cancellation
  fm : FillModel
  deriving DecidableEq

/-- `processMarketEvent(marketEvent)`: evaluate every tracked order in insertion
order, threading the ledger through. -/
def FillModel.processMarketEvent (fm : FillModel) (ev : LimitMarketEvent) : SweepResult :=
  let out := fm.orders.foldl
    (fun (acc : List Order × List Fill × List Cancellation × PositionLedger) o =>
      let step := FillModel.processOneOrder { fm with ledger := acc.2.2.2 } ev o
      (acc.1 ++ [step.order], acc.2.1 ++ step.fills, acc.2.2.1 ++ step.cancellations,
        step.ledger))
    ([], [], [], fm.ledger)
  ⟨out.2.1, out.2.2.1, { fm with orders := out.1, ledger := out.2.2.2 }⟩

theorem passiveNeAggressive : ("passive" : String) ≠ "aggressive" := by decide

/-- Every fill produced by the `_bookFill` walk is charged at the force-taker fee
rate and liquidity tag, and originates from a level whose raw price satisfies the
(optional) limit-price bound, tick-rounded. -/
theorem bookWalk_fills_mem (fm : FillModel) (side : String) (lp : Option ℚ) (ts : ℤ)
    (oid : String) (ft : Bool) :
    ∀ (levels : List Level) (rem : ℚ) (led : PositionLedger),
      ∀ fl ∈ (bookWalk fm side lp ts oid ft levels rem led).fills,
        fl.feeRate = (if ft then fm.fees.taker else fm.fees.maker)
        ∧ fl.liquidity = (if ft then "taker" else "maker")
        ∧ ∃ lvl ∈ levels, levelPriceMatch side lp lvl = true
            ∧ fl.price = roundToTick lvl.price fm.constraints.tickSize := by
  intro levels
  induction levels with
  | nil =>
    intro rem led fl hfl
    simp [bookWalk] at hfl
  | cons level rest ih =>
    intro rem led fl hfl
    simp only [bookWalk] at hfl
    by_cases hskip : levelPriceMatch side lp level = false ∨ rem ≤ 0
    · rw [if_pos hskip] at hfl
      obtain ⟨h1, h2, lvl, hmem, hrest⟩ := ih rem led fl hfl
      exact ⟨h1, h2, lvl, List.mem_cons_of_mem _ hmem, hrest⟩
    · rw [if_neg hskip] at hfl
      have hmatch : levelPriceMatch side lp level = true := by
        cases h : levelPriceMatch side lp level
        · exact absurd (Or.inl h) hskip
        · rfl
      rcases List.mem_cons.mp hfl with heq | hmem
      · subst heq
        exact ⟨rfl, rfl, level, List.mem_cons_self _ _, hmatch, rfl⟩
      · obtain ⟨h1, h2, lvl, hmem', hrest⟩ := ih _ _ fl hmem
        exact ⟨h1, h2, lvl, List.mem_cons_of_mem _ hmem', hrest⟩

/-- As `bookWalk_fills_mem`, lifted to `_bookFill`. -/
theorem bookFill_fills (fm : FillModel) (side : String) (qty : ℚ) (book : Book)
    (lp : Option ℚ) (ts : ℤ) (oid : String) (ft : Bool) :
    ∀ fl ∈ (fm.bookFill side qty book lp ts oid ft).fills,
      fl.feeRate = (if ft then fm.fees.taker else fm.fees.maker)
      ∧ fl.liquidity = (if ft then "taker" else "maker")
      ∧ ∃ lvl, levelPriceMatch side lp lvl = true
          ∧ fl.price = roundToTick lvl.price fm.constraints.tickSize := by
  intro fl hfl
  simp only [FillModel.bookFill] at hfl
  obtain ⟨h1, h2, lvl, _, hrest⟩ := bookWalk_fills_mem fm side lp ts oid ft _ qty fm.ledger
    fl hfl
  exact ⟨h1, h2, lvl, hrest⟩

/-! ## Claim C6 -/

/-- C6: an open limit order is considered only once simulation time is at or past
its activation time; at evaluation the checks apply in this order: effective
pending cancellation → cancelled with `user_cancel`; elapsed TTL → cancelled with
`ttl_timeout`; otherwise a passive order fills only when crossed
(`(buy) best ask ≤ limit`, `(sell) best bid ≥ limit`) while an aggressive order
always attempts to fill against the book at or better than its limit, with the
maker fee rate for passive fills and the taker fee rate for aggressive ones. -/
theorem limit_order_eval_spec (fm : FillModel) (ev : LimitMarketEvent) (o : Order)
    (hopen : o.status = "open") :
    (ev.timestamp < o.activeAt → fm.processOneOrder ev o = ⟨o, [], [], fm.ledger⟩)
    ∧ (o.activeAt ≤ ev.timestamp →
      (∀ t, o.cancelEffectiveAt = some t → t ≤ ev.timestamp →
        fm.processOneOrder ev o =
          ⟨{ o with status := "cancelled" }, [],
            [⟨o.orderId, "user_cancel", ev.timestamp⟩], fm.ledger⟩)
      ∧ (¬ (o.cancelEffectiveAt.isSome ∧ o.cancelEffectiveAt.getD 0 ≤ ev.timestamp) →
        (∀ t, o.expiresAt = some t → t ≤ ev.timestamp →
          fm.processOneOrder ev o =
            ⟨{ o with status := "cancelled" }, [],
              [⟨o.orderId, "ttl_timeout", ev.timestamp⟩], fm.ledger⟩)
        ∧ (¬ (o.expiresAt.isSome ∧ o.expiresAt.getD 0 ≤ ev.timestamp) →
          (o.mode = "passive" → orderCrossed o ev = false →
            fm.processOneOrder ev o = ⟨o, [], [], fm.ledger⟩)
          ∧ ((o.mode = "passive" ∧ orderCrossed o ev = true) ∨ o.mode = "aggressive" →
            (fm.processOneOrder ev o).fills =
              (fm.bookFill o.side o.remainingQty (ev.orderbook.getD ⟨ev.asks, ev.bids⟩)
                (some o.price) ev.timestamp o.orderId (o.mode = "aggressive")).fills
            ∧ ∀ fl ∈ (fm.processOneOrder ev o).fills,
                (o.mode = "passive" → fl.feeRate = fm.fees.maker ∧ fl.liquidity = "maker")
                ∧ (o.mode = "aggressive" →
                    fl.feeRate = fm.fees.taker ∧ fl.liquidity = "taker")
                ∧ ∃ lvl, levelPriceMatch o.side (some o.price) lvl = true
                    ∧ fl.price = roundToTick lvl.price fm.constraints.tickSize)))) := by
  have hno : ¬ (o.status ≠ "open") := by simp [hopen]
  constructor
  · intro hlt
    simp only [FillModel.processOneOrder, if_neg hno, if_pos hlt]
  · intro hge
    have hnlt : ¬ ev.timestamp < o.activeAt := not_lt.mpr hge
    constructor
    · intro t hct htle
      have hc : o.cancelEffectiveAt.isSome ∧ o.cancelEffectiveAt.getD 0 ≤ ev.timestamp := by
        simp [hct, htle]
      simp only [FillModel.processOneOrder, if_neg hno, if_neg hnlt, if_pos hc]
    · intro hnc
      constructor
      · intro t het htle
        have hx : o.expiresAt.isSome ∧ o.expiresAt.getD 0 ≤ ev.timestamp := by
          simp [het, htle]
        simp only [FillModel.processOneOrder, if_neg hno, if_neg hnlt, if_neg hnc, if_pos hx]
      · intro hnx
        have hred : fm.processOneOrder ev o =
            ⟨(fm.executeLimitOrder o ev).1, (fm.executeLimitOrder o ev).2.1, [],
              (fm.executeLimitOrder o ev).2.2⟩ := by
          simp only [FillModel.processOneOrder, if_neg hno, if_neg hnlt, if_neg hnc,
            if_neg hnx]
        constructor
        · intro hp hcr
          have hcc : orderCrossed o ev = false ∧ o.mode = "passive" := ⟨hcr, hp⟩
          rw [hred]
          simp only [FillModel.executeLimitOrder, if_pos hcc]
        · intro hm
          have hcond : ¬ (orderCrossed o ev = false ∧ o.mode = "passive") := by
            rcases hm with ⟨hp, hcr⟩ | ha
            · intro hc
              rw [hcr] at hc
              exact absurd hc.1 (by simp)
            · intro hc
              rw [ha] at hc
              exact absurd hc.2 (by simp [passiveNeAggressive.symm])
          have hfe : (fm.executeLimitOrder o ev).2.1 =
              (fm.bookFill o.side o.remainingQty (ev.orderbook.getD ⟨ev.asks, ev.bids⟩)
                (some o.price) ev.timestamp o.orderId (o.mode = "aggressive")).fills := by
            simp only [FillModel.executeLimitOrder, if_neg hcond]
            split
            · rename_i hempty
              rw [hempty]
            · rfl
          refine ⟨by rw [hred]; exact hfe, ?_⟩
          intro fl hfl
          rw [hred] at hfl
          simp only at hfl
          rw [hfe] at hfl
          have := bookFill_fills fm o.side o.remainingQty (ev.orderbook.getD ⟨ev.asks, ev.bids⟩)
            (some o.price) ev.timestamp o.orderId (decide (o.mode = "aggressive")) fl hfl
          obtain ⟨h1, h2, h3⟩ := this
          refine ⟨?_, ?_, h3⟩
          · intro hp
            have hd : decide (o.mode = "aggressive") = false := by
              rw [hp]
              simp [passiveNeAggressive]
            rw [hd] at h1 h2
            exact ⟨by simpa using h1, by simpa using h2⟩
          · intro ha
            have hd : decide (o.mode = "aggressive") = true := by
              rw [ha]
              simp
            rw [hd] at h1 h2
            exact ⟨by simpa using h1, by simpa using h2⟩

def fmC6 : FillModel :=
  ⟨⟨none, none, none, none, none⟩, ⟨1/100, 2/100⟩, .simple_fixed 0, 0, 0, [], 1, ⟨0, 0, 0⟩⟩

def oC6 : Order := ⟨"o1", "buy", 1, 1, 100, "passive", "open", 0, 0, some 5, none, none, []⟩

def evC6 : LimitMarketEvent := ⟨10, some 99, none, none, some [⟨99, 2⟩], none⟩

theorem limit_order_eval_spec_witness :
    fmC6.processOneOrder evC6 oC6 =
      ⟨{ oC6 with status := "cancelled" }, [], [⟨"o1", "ttl_timeout", 10⟩], fmC6.ledger⟩ := by
  have h := ((limit_order_eval_spec fmC6 evC6 oC6 rfl).2 (by decide)).2
    (by simp [oC6])
  exact h.1 5 rfl (by decide)

/-! ## Backtest engine — `src/engine/index.js`

The engine is modelled as a pure state-transition system.  Strategy and
Execution collaborators are parameters: deterministic functions that receive the
event, a read context, the engine's RNG state and their own private state, and
return produced events plus updated RNG / private state (spec §5: collaborators
communicate only via returned events and a read-only context).  Runs containing
an event of unknown kind, or failing parameter validation, abort with no output
in the source (`validateRunParams`, `normalizeEvent`, the dispatch `default`
branch all throw), so completed runs — the subject of the claims — only contain
the nine known kinds, which the `EventType` type enumerates. -/

inductive MarketType where
  | spot
  | futures
  | perpetual
  deriving DecidableEq

/-- `isMarginMarket(marketType)`. -/
def isMarginMarket : MarketType → Bool
  | .futures => true
  | .perpetual => true
  | .spot => false

inductive EventType where
  | tick
  | candle
  | signal_generated
  | order_submitted
  | order_filled
  | order_cancelled
  | funding_payment
  | margin_update
  | liquidated
  deriving DecidableEq

/-- `EVENT_PRIORITY`. -/
def EVENT_PRIORITY : EventType → ℕ
  | .tick => 10
  | .candle => 10
  | .signal_generated => 20
  | .order_submitted => 30
  | .order_filled => 40
  | .order_cancelled => 50
  | .funding_payment => 60
  | .margin_update => 70
  | .liquidated => 80

/-- The engine's untyped event bag: a kind, a timestamp, the scheduling fields
(`priority` assigned by `normalizeEvent`, `_seq` assigned at enqueue) and the
kind-specific optional payload fields the source reads. -/
structure Event where
  type : EventType
  timestamp : ℤ
  priority : ℕ
  seq : ℕ
  price : Option ℚ
  close : Option ℚ
  markPrice : Option ℚ
  side : Option String
  qty : Option ℚ
  orderId : Option String
  reason : Option String
  amount : Option ℚ
  fundingRate : Option ℚ
  intervalMultiplier : Option ℚ
  positionNotional : Option ℚ
  initialMargin : Option ℚ
  marginAmt : Option ℚ
  maintenanceMargin : Option ℚ
  unrealizedPnl : Option ℚ
  penalty : Option ℚ
  trigger : Option String
  deriving DecidableEq

/-- An event of the given kind and timestamp with every payload field absent. -/
def mkEvent (t : EventType) (ts : ℤ) : Event :=
  ⟨t, ts, 0, 0, none, none, none, none, none, none, none, none, none, none, none, none, none,
    none, none, none, none⟩

/-- `compareEvents(a, b)`: timestamp, then priority, then sequence number. -/
def compareEvents (a b : Event) : ℤ :=
  if a.timestamp ≠ b.timestamp then a.timestamp - b.timestamp
  else if a.priority ≠ b.priority then (a.priority : ℤ) - (b.priority : ℤ)
  else (a.seq : ℤ) - (b.seq : ℤ)

/-- The sort relation induced by `compareEvents`. -/
def eventLE (a b : Event) : Prop := compareEvents a b ≤ 0

instance : DecidableRel eventLE :=
  fun a b => inferInstanceAs (Decidable (compareEvents a b ≤ 0))

instance : IsTotal Event eventLE := by
  constructor
  intro a b
  unfold eventLE compareEvents
  split_ifs <;> omega

instance : IsTrans Event eventLE := by
  constructor
  intro a b c
  unfold eventLE compareEvents
  split_ifs <;> omega

/-- The `(timestamp, priority, sequence)` lexicographic key order the spec
describes. -/
def eventKeyLE (a b : Event) : Prop :=
  a.timestamp < b.timestamp
  ∨ (a.timestamp = b.timestamp ∧ (a.priority < b.priority
      ∨ (a.priority = b.priority ∧ a.seq ≤ b.seq)))

instance (a b : Event) : Decidable (eventKeyLE a b) := by
  unfold eventKeyLE
  infer_instance

theorem eventLE_iff_keyLE (a b : Event) : eventLE a b ↔ eventKeyLE a b := by
  unfold eventLE eventKeyLE compareEvents
  split_ifs <;> omega

/-- One entry of the trade log (`this._tradeLogs`): the union of the record shapes
the handlers push, with absent fields `none`. -/
structure TradeLogEntry where
  timestamp : ℤ
  type : EventType
  orderId : Option String
  side : Option String
  qty : Option ℚ
  price : Option ℚ
  cashAfter : Option ℚ
  positionAfter : Option Position
  reason : Option String
  amount : Option ℚ
  fundingRate : Option ℚ
  intervalMultiplier : Option ℚ
  margin : Option ℚ
  initialMargin : Option ℚ
  maintenanceMargin : Option ℚ
  unrealizedPnl : Option ℚ
  markPrice : Option ℚ
  trigger : Option String
  penalty : Option ℚ
  deriving DecidableEq

def mkLogEntry (ts : ℤ) (t : EventType) : TradeLogEntry :=
  ⟨ts, t, none, none, none, none, none, none, none, none, none, none, none, none, none, none,
    none, none, none⟩

/-- One entry of the equity series (`this._equitySeries`). -/
structure EquityEntry where
  timestamp : ℤ
  equity : ℚ
  cash : ℚ
  margin : ℚ
  maintenanceMargin : ℚ
  positionQty : ℚ
  positionAvgPrice : ℚ
  lastPrice : Option ℚ
  markPrice : ℚ
  deriving DecidableEq

/-- The run parameters the engine reads after validation.  `Number(x) || 0`
coercions of the rate/interval fields are applied by the caller of the model. -/
structure Config where
  marketType : MarketType
  initialCash : Option ℚ
  randomSeed : Option ℤ
  fundingRate : ℚ
  fundingIntervalMs : ℤ
  initialMarginRate : ℚ
  maintenanceMarginRate : ℚ
  liquidationPenaltyRate : ℚ
  deriving DecidableEq

/-- `this.state`. -/
structure EngineState where
  cash : ℚ
  equity : ℚ
  margin : ℚ
  maintenanceMargin : ℚ
  unrealizedPnl : ℚ
  lastPrice : Option ℚ
  markPrice : Option ℚ
  position : Position
  liquidated : Bool
  deriving DecidableEq

/-- The full per-run instance state of `BacktestEngine` (the `_orders` map is
keyed by the possibly-absent `order_id` and stores the recorded event together
with its status string; it is write-only in the source). -/
structure Engine where
  state : EngineState
  eventQueue : List Event
  seq : ℕ
  tradeLogs : List TradeLogEntry
  equitySeries : List EquityEntry
  orders : List (Option String × Event × String)
  currentConfig : Config
  nextFundingTimestamp : Option ℤ
  rngState : ℕ

/-- `Map.set`: overwrite in place when the key exists, else append. -/
def ordersSet (m : List (Option String × Event × String)) (k : Option String)
    (v : Event × String) : List (Option String × Event × String) :=
  if m.any (fun p => decide (p.1 = k)) then
    m.map (fun p => if p.1 = k then (k, v) else p)
  else m ++ [(k, v)]

/-- The read context handed to Strategy / Execution collaborators. -/
structure Ctx where
  state : EngineState
  config : Config
  timestamp : ℤ
  markPrice : ℚ

/-- A deterministic Strategy/Execution collaborator pair with private states
`σs` / `σe`: each call receives the engine RNG state and returns produced
events, the advanced RNG state and its own next private state. -/
structure Collab (σs σe : Type) where
  stratInit : σs
  execInit : σe
  onEvent : Event → Ctx → ℕ → σs → List Event × ℕ × σs
  onSignal : Event → Ctx → ℕ → σe → List Event × ℕ × σe
  onMarketEvent : Event → Ctx → ℕ → σe → List Event × ℕ × σe

/-! ### Seeded RNG — `createSeededRng` / `hashSeed`

32-bit JS integer coercions are modelled as naturals reduced mod `2³²` at every
coercion point; `Math.imul`'s signed result is congruent mod `2³²` to the
unsigned product, and every consumer re-coerces, so the unsigned residue is
faithful. -/

def imul32 (a b : ℕ) : ℕ := (a * b) % 4294967296

def xor32 (a b : ℕ) : ℕ := Nat.xor (a % 4294967296) (b % 4294967296)

def or32 (a b : ℕ) : ℕ := Nat.lor (a % 4294967296) (b % 4294967296)

def shr32 (a k : ℕ) : ℕ := (a % 4294967296) >>> k

/-- `hashSeed(seed)`: FNV-1a over the decimal string of the seed. -/
def hashSeed (seed : ℤ) : ℕ :=
  (toString seed).data.foldl (fun h c => imul32 (xor32 h c.toNat) 16777619) 2166136261

/-- `hashSeed(seed) || 0x9e3779b9`. -/
def mulberryInit (seed : ℤ) : ℕ :=
  let h := hashSeed seed
  if h = 0 then 2654435769 else h

/-- One draw of the mulberry32-style generator returned by `createSeededRng`:
the value in `[0, 1)` and the advanced state.  The accumulator `state` itself is
a JS float that grows without 32-bit truncation; each use of `t` re-coerces. -/
def rngNext (state : ℕ) : ℚ × ℕ :=
  let s := state + 1831565813
  let t1 := imul32 (xor32 s (shr32 s 15)) (or32 s 1)
  let t2 := xor32 t1 (t1 + imul32 (xor32 t1 (shr32 t1 7)) (or32 t1 61))
  (((xor32 t2 (shr32 t2 14) : ℕ) : ℚ) / 4294967296, s)

/-! ### Scheduler and handlers -/

/-- `normalizeEvent`: assign the priority of the kind (timestamps are already
integral in the model; unparsable timestamps abort the run in the source). -/
def normalizeEvent (e : Event) : Event := { e with priority := EVENT_PRIORITY e.type }

/-- `enqueueEvents(events)`: normalize, assign consecutive sequence numbers, push
and re-sort the whole queue by `compareEvents` (the source's stable `Array.sort`;
sequence numbers are unique so ties never arise). -/
def enqueueEvents (eng : Engine) (events : List Event) : Engine :=
  let qs := events.foldl
    (fun (acc : List Event × ℕ) ev =>
      (acc.1 ++ [{ normalizeEvent ev with seq := acc.2 }], acc.2 + 1))
    (eng.eventQueue, eng.seq)
  { eng with eventQueue := List.insertionSort eventLE qs.1, seq := qs.2 }

/-- `getRiskPrice()`. -/
def getRiskPrice (eng : Engine) : ℚ :=
  if isMarginMarket eng.currentConfig.marketType then
    (eng.state.markPrice.or eng.state.lastPrice).getD eng.state.position.avgPrice
  else eng.state.lastPrice.getD eng.state.position.avgPrice

/-- `createContext(timestamp)` (the RNG and enqueue callbacks are modelled by the
explicit RNG threading and returned event lists of `Collab`). -/
def createContext (eng : Engine) (timestamp : ℤ) : Ctx :=
  ⟨eng.state, eng.currentConfig, timestamp, getRiskPrice eng⟩

/-- `updateEquity(timestamp)`: recompute equity / unrealized PnL and append the
equity-series snapshot. -/
def updateEquity (eng : Engine) (timestamp : ℤ) : Engine :=
  let markPrice := getRiskPrice eng
  let unrealizedPnl := calculateUnrealizedPnl eng.state.position (some markPrice)
  { eng with
      state := { eng.state with
                  equity := eng.state.cash + unrealizedPnl,
                  unrealizedPnl := unrealizedPnl },
      equitySeries := eng.equitySeries ++
        [⟨timestamp, eng.state.cash + unrealizedPnl, eng.state.cash, eng.state.margin,
          eng.state.maintenanceMargin, eng.state.position.qty, eng.state.position.avgPrice,
          eng.state.lastPrice, markPrice⟩] }

/-- `queueRiskEvents(timestamp, {trigger})`: for margin-bearing market types,
enqueue a margin-update event and, on a maintenance-margin breach with an open
position, a liquidation event with penalty `positionNotional × max(0, rate)`. -/
def queueRiskEvents (eng : Engine) (timestamp : ℤ) (trigger : String) : Engine :=
  if isMarginMarket eng.currentConfig.marketType = false then eng
  else
    let snapshot := calculateMarginSnapshot eng.state.position (some (getRiskPrice eng))
      eng.currentConfig.initialMarginRate eng.currentConfig.maintenanceMarginRate
    let eng1 := enqueueEvents eng
      [{ mkEvent .margin_update timestamp with
          initialMargin := some snapshot.initialMargin,
          maintenanceMargin := some snapshot.maintenanceMargin,
          unrealizedPnl := some snapshot.unrealizedPnl,
          markPrice := some snapshot.markPrice,
          trigger := some trigger }]
    if 0 < jsAbs eng.state.position.qty ∧
        eng.state.cash + snapshot.unrealizedPnl < snapshot.maintenanceMargin then
      enqueueEvents eng1
        [{ mkEvent .liquidated timestamp with
            reason := some "maintenance_margin_breach",
            price := some snapshot.markPrice,
            penalty := some (snapshot.positionNotional *
              max 0 eng.currentConfig.liquidationPenaltyRate) }]
    else eng1

/-- The funding-payment event built inside `queueFundingEventsUntil`'s loop, from
the position notional at scheduling time. -/
def fundingEvent (eng : Engine) (nft : ℤ) (rate : ℚ) : Event :=
  let markPrice := getRiskPrice eng
  let notional := jsAbs eng.state.position.qty * jsAbs markPrice
  { mkEvent .funding_payment nft with
      amount := some (-notional * rate),
      fundingRate := some rate,
      intervalMultiplier := some 1,
      positionNotional := some notional }

/-- The `while (nextFundingTimestamp <= timestamp)` loop of
`queueFundingEventsUntil`, with its (finite) iteration count made explicit. -/
def queueFundingLoop : ℕ → Engine → ℤ → ℤ → ℚ → Engine
  | 0, eng, nft, _, _ => { eng with nextFundingTimestamp := some nft }
  | n + 1, eng, nft, interval, rate =>
      queueFundingLoop n (enqueueEvents eng [fundingEvent eng nft rate]) (nft + interval)
        interval rate

/-- `queueFundingEventsUntil(timestamp)`: no-op without funding config or an open
position; anchor the first boundary on first relevance; then enqueue one
funding-payment event per elapsed boundary (possibly with past timestamps). -/
def queueFundingEventsUntil (eng : Engine) (timestamp : ℤ) : Engine :=
  let rate := eng.currentConfig.fundingRate
  let interval := eng.currentConfig.fundingIntervalMs
  if rate = 0 ∨ interval ≤ 0 ∨ eng.state.position.qty = 0 then eng
  else
    match eng.nextFundingTimestamp with
    | none => { eng with nextFundingTimestamp := some (timestamp + interval) }
    | some nft =>
        let count := if nft ≤ timestamp then ((timestamp - nft) / interval).toNat + 1 else 0
        queueFundingLoop count eng nft interval rate

/-- `handleMarketEvent(event)`: update last/mark price, invoke Strategy then
Execution (each enqueueing its returned events), then funding, then risk. -/
def handleMarketEvent (C : Collab σs σe) (eng : Engine) (ss : σs) (es : σe) (e : Event) :
    Engine × σs × σe :=
  let lastPrice := (e.price.or e.close).or eng.state.lastPrice
  let markPrice := (e.markPrice.or eng.state.markPrice).or lastPrice
  let eng1 := { eng with
    state := { eng.state with
                lastPrice := lastPrice,
                markPrice := markPrice } }
  let sres := C.onEvent e (createContext eng1 e.timestamp) eng1.rngState ss
  let eng2 := enqueueEvents { eng1 with rngState := sres.2.1 } sres.1
  let xres := C.onMarketEvent e (createContext eng2 e.timestamp) eng2.rngState es
  let eng3 := enqueueEvents { eng2 with rngState := xres.2.1 } xres.1
  let eng4 := queueFundingEventsUntil eng3 e.timestamp
  (queueRiskEvents eng4 e.timestamp "market", sres.2.2, xres.2.2)

/-- `handleSignal(event)`: invoke Execution.onSignal and enqueue its events. -/
def handleSignal (C : Collab σs σe) (eng : Engine) (es : σe) (e : Event) : Engine × σe :=
  let xres := C.onSignal e (createContext eng e.timestamp) eng.rngState es
  (enqueueEvents { eng with rngState := xres.2.1 } xres.1, xres.2.2)

/-- `handleOrderSubmitted(event)`. -/
def handleOrderSubmitted (eng : Engine) (e : Event) : Engine :=
  { eng with
      orders := ordersSet eng.orders e.orderId (e, "submitted"),
      tradeLogs := eng.tradeLogs ++
        [{ mkLogEntry e.timestamp e.type with
            orderId := e.orderId,
            side := e.side,
            qty := e.qty,
            price := e.price }] }

/-- `handleOrderFilled(event)`: sign-aware cash debit, average-price update
(blend on same-direction/flat, fill price on a sign flip, 0 on reaching flat),
trade-log record, then risk re-evaluation.  A fill with neither an event price
nor a last price is a poisoned (`NaN`) run in the source; the model reads 0. -/
def handleOrderFilled (eng : Engine) (e : Event) : Engine :=
  let fillPrice := (e.price.or eng.state.lastPrice).getD 0
  let sq := if e.side = some "sell" then -(jsAbs (e.qty.getD 0)) else jsAbs (e.qty.getD 0)
  let value := sq * fillPrice
  let prevQty := eng.state.position.qty
  let newQty := prevQty + sq
  let cash := eng.state.cash - value
  let avg :=
    if newQty = 0 then 0
    else if jsign prevQty = jsign newQty ∨ prevQty = 0 then
      (eng.state.position.avgPrice * prevQty + fillPrice * sq) / newQty
    else fillPrice
  let eng1 := { eng with
    state := { eng.state with
                cash := cash,
                position := ⟨newQty, avg⟩ },
    orders := ordersSet eng.orders e.orderId (e, "filled"),
    tradeLogs := eng.tradeLogs ++
      [{ mkLogEntry e.timestamp e.type with
          orderId := e.orderId,
          side := e.side,
          qty := e.qty,
          price := some fillPrice,
          cashAfter := some cash,
          positionAfter := some ⟨newQty, avg⟩ }] }
  queueRiskEvents eng1 e.timestamp "fill"

/-- `handleOrderCancelled(event)`. -/
def handleOrderCancelled (eng : Engine) (e : Event) : Engine :=
  { eng with
      orders := eng.orders.map
        (fun p => if p.1 = e.orderId then (p.1, p.2.1, "cancelled") else p),
      tradeLogs := eng.tradeLogs ++
        [{ mkLogEntry e.timestamp e.type with
            orderId := e.orderId,
            reason := e.reason }] }

/-- `handleFundingPayment(event)`: pure cash addition of the signed amount, a
trade-log record, then risk re-evaluation (a missing amount poisons the source
run with `NaN`; the model reads 0). -/
def handleFundingPayment (eng : Engine) (e : Event) : Engine :=
  let eng1 := { eng with
    state := { eng.state with cash := eng.state.cash + e.amount.getD 0 },
    tradeLogs := eng.tradeLogs ++
      [{ mkLogEntry e.timestamp e.type with
          amount := e.amount,
          fundingRate := e.fundingRate,
          intervalMultiplier := e.intervalMultiplier }] }
  queueRiskEvents eng1 e.timestamp "funding"

/-- `handleMarginUpdate(event)`: overwrite margin figures from the payload. -/
def handleMarginUpdate (eng : Engine) (e : Event) : Engine :=
  let margin := ((e.initialMargin.or e.marginAmt).or e.amount).getD eng.state.margin
  let maintenanceMargin := e.maintenanceMargin.getD eng.state.maintenanceMargin
  let unrealizedPnl := e.unrealizedPnl.getD eng.state.unrealizedPnl
  { eng with
      state := { eng.state with
                  margin := margin,
                  maintenanceMargin := maintenanceMargin,
                  unrealizedPnl := unrealizedPnl },
      tradeLogs := eng.tradeLogs ++
        [{ mkLogEntry e.timestamp e.type with
            margin := some margin,
            initialMargin := some margin,
            maintenanceMargin := some maintenanceMargin,
            unrealizedPnl := some unrealizedPnl,
            markPrice := e.markPrice,
            trigger := e.trigger }] }

/-- `this.state.liquidated = true` at the top of `handleLiquidation`. -/
def setLiquidated (eng : Engine) : Engine :=
  { eng with state := { eng.state with liquidated := true } }

/-- The order-filled event `handleLiquidation` synthesizes to force-close the
open position: full remaining quantity, opposite side, at the liquidation
price `event.price ?? lastPrice ?? avgPrice`. -/
def liquidationFillEvent (eng1 : Engine) (e : Event) : Event :=
  { e with
      type := .order_filled,
      side := some (if 0 < eng1.state.position.qty then "sell" else "buy"),
      qty := some (jsAbs eng1.state.position.qty),
      price := some ((e.price.or eng1.state.lastPrice).getD eng1.state.position.avgPrice),
      orderId := e.orderId.or (some ("liq-" ++ toString e.timestamp)) }

/-- `handleLiquidation(event)`: mark liquidated, force-close any open position by
invoking `handleOrderFilled` on a synthesized opposite-side order-filled event
for the full quantity at the liquidation price, deduct a truthy penalty's
absolute value from cash, and record the liquidation. -/
def handleLiquidation (eng : Engine) (e : Event) : Engine :=
  let eng1 := setLiquidated eng
  let eng2 :=
    if eng1.state.position.qty ≠ 0 then
      handleOrderFilled eng1 (liquidationFillEvent eng1 e)
    else eng1
  let eng3 :=
    if e.penalty.getD 0 ≠ 0 then
      { eng2 with
          state := { eng2.state with cash := eng2.state.cash - jsAbs (e.penalty.getD 0) } }
    else eng2
  { eng3 with
      tradeLogs := eng3.tradeLogs ++
        [{ mkLogEntry e.timestamp e.type with
            reason := e.reason,
            penalty := some (e.penalty.getD 0) }] }

/-- `processEvent(event)`: dispatch by kind, then `updateEquity`. -/
def processEvent (C : Collab σs σe) (eng : Engine) (ss : σs) (es : σe) (e : Event) :
    Engine × σs × σe :=
  let r : Engine × σs × σe :=
    match e.type with
    | .tick => handleMarketEvent C eng ss es e
    | .candle => handleMarketEvent C eng ss es e
    | .signal_generated =>
        let h := handleSignal C eng es e
        (h.1, ss, h.2)
    | .order_submitted => (handleOrderSubmitted eng e, ss, es)
    | .order_filled => (handleOrderFilled eng e, ss, es)
    | .order_cancelled => (handleOrderCancelled eng e, ss, es)
    | .funding_payment => (handleFundingPayment eng e, ss, es)
    | .margin_update => (handleMarginUpdate eng e, ss, es)
    | .liquidated => (handleLiquidation eng e, ss, es)
  (updateEquity r.1 e.timestamp, r.2.1, r.2.2)

/-- What one bounded run returns: the final engine / collaborator states and the
dispatch trace — each processed event paired with the events still pending in
the queue at the moment it was popped. -/
structure RunOut (σs σe : Type) where
  eng : Engine
  ss : σs
  es : σe
  trace : List (Event × List Event)

/-- The `while` loop of `run()`: pop the queue head, process it, and stop early
the moment the state is liquidated.  `fuel` bounds the number of iterations (the
source loop may run as long as collaborators keep producing events). -/
def runLoop (C : Collab σs σe) : ℕ → Engine → σs → σe → RunOut σs σe
  | 0, eng, ss, es => ⟨eng, ss, es, []⟩
  | fuel + 1, eng, ss, es =>
    match eng.eventQueue with
    | [] => ⟨eng, ss, es, []⟩
    | e :: rest =>
      let r := processEvent C { eng with eventQueue := rest } ss es e
      if r.1.state.liquidated = true then ⟨r.1, r.2.1, r.2.2, [(e, rest)]⟩
      else
        let out := runLoop C fuel r.1 r.2.1 r.2.2
        ⟨out.eng, out.ss, out.es, (e, rest) :: out.trace⟩

/-- `this.reset()` composed with the pre-loop body of `run(params)`: fresh state,
initial cash from the params, and the RNG re-seeded from `params.random_seed`
when given, else left at the constructor's seed (`options.random_seed ?? 1`). -/
def resetEngine (ctorSeed : ℤ) (cfg : Config) : Engine :=
  let st : EngineState := ⟨0, 0, 0, 0, 0, none, none, ⟨0, 0⟩, false⟩
  let st1 :=
    match cfg.initialCash with
    | some c => { st with cash := c, equity := c }
    | none => st
  ⟨st1, [], 0, [], [], [], cfg, none, mulberryInit (cfg.randomSeed.getD ctorSeed)⟩

/-- `run(params)` on a fresh engine instance constructed with constructor seed
`ctorSeed`: reset, enqueue the (already normalized) loaded events, and drain. -/
def runModel (C : Collab σs σe) (ctorSeed : ℤ) (cfg : Config) (inputs : List Event)
    (fuel : ℕ) : RunOut σs σe :=
  runLoop C fuel (enqueueEvents (resetEngine ctorSeed cfg) inputs) C.stratInit C.execInit

/-- `createDefaultExecution().onSignal`: an immediate market fill with randomized
latency (0–100 ms) and slippage (±5 bps) drawn from the engine RNG, with the
closure's order counter as private state. -/
def defaultOnSignal (signal : Event) (ctx : Ctx) (rng : ℕ) (orderCounter : ℕ) :
    List Event × ℕ × ℕ :=
  if signal.side.isNone ∨ signal.qty.getD 0 = 0 then ([], rng, orderCounter)
  else
    let next := orderCounter + 1
    let orderId := "order-" ++ toString next
    let r1 := rngNext rng
    let latencyMs := ⌊r1.1 * 100⌋
    let r2 := rngNext r1.2
    let slippageBps := (r2.1 - 1/2) * 10
    let refPrice := (signal.price.or ctx.state.lastPrice).getD 0
    let fillPrice := refPrice * (1 + slippageBps / 10000)
    ([{ mkEvent .order_submitted signal.timestamp with
          orderId := some orderId,
          side := signal.side,
          qty := signal.qty,
          price := some refPrice },
      { mkEvent .order_filled (signal.timestamp + latencyMs) with
          orderId := some orderId,
          side := signal.side,
          qty := signal.qty,
          price := some fillPrice }], r2.2, next)

/-- `createDefaultExecution()` paired with a given strategy. -/
def withDefaultExecution (σs : Type) (init : σs)
    (onEvent : Event → Ctx → ℕ → σs → List Event × ℕ × σs) : Collab σs ℕ :=
  ⟨init, 0, onEvent, defaultOnSignal, fun _ _ rng c => ([], rng, c)⟩

/-- A strategy/execution pair that produces no events (used for concrete runs
driven purely by the input stream). -/
def trivialCollab : Collab Unit Unit :=
  ⟨(), (), fun _ _ rng s => ([], rng, s), fun _ _ rng s => ([], rng, s),
    fun _ _ rng s => ([], rng, s)⟩

/-! ## Claim C2 -/

/-- C2: for a fixed input event array, fixed run parameters and a fixed integer
seed, two independent runs — fresh engine instances (their constructor-time
seeds may even differ, since `run` re-seeds from the params) with the same
deterministic collaborators — produce identical trade logs and identical equity
series (the whole run outputs coincide). -/
theorem run_determinism (σs σe : Type) (C : Collab σs σe) (ctor1 ctor2 : ℤ)
    (cfg : Config) (inputs : List Event) (fuel : ℕ) (s : ℤ)
    (hseed : cfg.randomSeed = some s) :
    (runModel C ctor1 cfg inputs fuel).eng.tradeLogs
        = (runModel C ctor2 cfg inputs fuel).eng.tradeLogs
    ∧ (runModel C ctor1 cfg inputs fuel).eng.equitySeries
        = (runModel C ctor2 cfg inputs fuel).eng.equitySeries := by
  have h : resetEngine ctor1 cfg = resetEngine ctor2 cfg := by
    unfold resetEngine
    rw [hseed]
    rfl
  unfold runModel
  rw [h]
  exact ⟨rfl, rfl⟩

def cfgC2 : Config := ⟨.spot, some 1000, some 7, 0, 0, 0, 0, 0⟩

theorem run_determinism_witness :
    cfgC2.randomSeed = some 7
    ∧ (runModel (withDefaultExecution Unit () (fun _ _ rng s => ([], rng, s))) 1 cfgC2 []
          0).eng.tradeLogs
        = (runModel (withDefaultExecution Unit () (fun _ _ rng s => ([], rng, s))) 2 cfgC2 []
          0).eng.tradeLogs :=
  ⟨rfl, (run_determinism Unit ℕ (withDefaultExecution Unit () (fun _ _ rng s => ([], rng, s)))
    1 2 cfgC2 [] 0 7 rfl).1⟩

/-! ## Frame lemmas on the engine -/

theorem enqueueEvents_state (eng : Engine) (events : List Event) :
    (enqueueEvents eng events).state = eng.state := rfl

theorem enqueueEvents_tradeLogs (eng : Engine) (events : List Event) :
    (enqueueEvents eng events).tradeLogs = eng.tradeLogs := rfl

theorem enqueueEvents_equitySeries (eng : Engine) (events : List Event) :
    (enqueueEvents eng events).equitySeries = eng.equitySeries := rfl

theorem queueFundingLoop_state : ∀ (n : ℕ) (eng : Engine) (nft interval : ℤ) (rate : ℚ),
    (queueFundingLoop n eng nft interval rate).state = eng.state
  | 0, _, _, _, _ => rfl
  | n + 1, eng, nft, interval, rate =>
      queueFundingLoop_state n (enqueueEvents eng [fundingEvent eng nft rate]) (nft + interval)
        interval rate

theorem queueFundingLoop_equitySeries : ∀ (n : ℕ) (eng : Engine) (nft interval : ℤ)
    (rate : ℚ), (queueFundingLoop n eng nft interval rate).equitySeries = eng.equitySeries
  | 0, _, _, _, _ => rfl
  | n + 1, eng, nft, interval, rate =>
      queueFundingLoop_equitySeries n (enqueueEvents eng [fundingEvent eng nft rate])
        (nft + interval) interval rate

theorem queueFundingLoop_tradeLogs : ∀ (n : ℕ) (eng : Engine) (nft interval : ℤ)
    (rate : ℚ), (queueFundingLoop n eng nft interval rate).tradeLogs = eng.tradeLogs
  | 0, _, _, _, _ => rfl
  | n + 1, eng, nft, interval, rate =>
      queueFundingLoop_tradeLogs n (enqueueEvents eng [fundingEvent eng nft rate])
        (nft + interval) interval rate

theorem queueFundingEventsUntil_state (eng : Engine) (timestamp : ℤ) :
    (queueFundingEventsUntil eng timestamp).state = eng.state := by
  simp only [queueFundingEventsUntil]
  split
  · rfl
  · split
    · rfl
    · split
      · exact queueFundingLoop_state _ _ _ _ _
      · exact queueFundingLoop_state _ _ _ _ _

theorem queueFundingEventsUntil_equitySeries (eng : Engine) (timestamp : ℤ) :
    (queueFundingEventsUntil eng timestamp).equitySeries = eng.equitySeries := by
  simp only [queueFundingEventsUntil]
  split
  · rfl
  · split
    · rfl
    · split
      · exact queueFundingLoop_equitySeries _ _ _ _ _
      · exact queueFundingLoop_equitySeries _ _ _ _ _

theorem queueFundingEventsUntil_tradeLogs (eng : Engine) (timestamp : ℤ) :
    (queueFundingEventsUntil eng timestamp).tradeLogs = eng.tradeLogs := by
  simp only [queueFundingEventsUntil]
  split
  · rfl
  · split
    · rfl
    · split
      · exact queueFundingLoop_tradeLogs _ _ _ _ _
      · exact queueFundingLoop_tradeLogs _ _ _ _ _

theorem queueRiskEvents_state (eng : Engine) (timestamp : ℤ) (trigger : String) :
    (queueRiskEvents eng timestamp trigger).state = eng.state := by
  simp only [queueRiskEvents]
  split
  · rfl
  · split <;> rfl

theorem queueRiskEvents_equitySeries (eng : Engine) (timestamp : ℤ) (trigger : String) :
    (queueRiskEvents eng timestamp trigger).equitySeries = eng.equitySeries := by
  simp only [queueRiskEvents]
  split
  · rfl
  · split <;> rfl

theorem queueRiskEvents_tradeLogs (eng : Engine) (timestamp : ℤ) (trigger : String) :
    (queueRiskEvents eng timestamp trigger).tradeLogs = eng.tradeLogs := by
  simp only [queueRiskEvents]
  split
  · rfl
  · split <;> rfl

theorem updateEquity_cash (eng : Engine) (ts : ℤ) :
    (updateEquity eng ts).state.cash = eng.state.cash := rfl

theorem updateEquity_position (eng : Engine) (ts : ℤ) :
    (updateEquity eng ts).state.position = eng.state.position := rfl

theorem updateEquity_liquidated (eng : Engine) (ts : ℤ) :
    (updateEquity eng ts).state.liquidated = eng.state.liquidated := rfl

theorem jsAbs_jsAbs (q : ℚ) : jsAbs (jsAbs q) = jsAbs q := by
  rw [jsAbs_eq_abs, jsAbs_eq_abs, abs_abs]

theorem handleOrderFilled_liquidated (eng : Engine) (e : Event) :
    (handleOrderFilled eng e).state.liquidated = eng.state.liquidated := by
  simp only [handleOrderFilled]
  rw [queueRiskEvents_state]

/-- The state effect of a synthesized full-close fill: quantity to 0, average
price to 0, and cash credited with `qty × price`. -/
theorem handleOrderFilled_close (eng : Engine) (e : Event) (P : ℚ)
    (hq : eng.state.position.qty ≠ 0)
    (hside : e.side = some (if 0 < eng.state.position.qty then "sell" else "buy"))
    (hqty : e.qty = some (jsAbs eng.state.position.qty))
    (hprice : e.price = some P) :
    (handleOrderFilled eng e).state.cash = eng.state.cash + eng.state.position.qty * P
    ∧ (handleOrderFilled eng e).state.position.qty = 0
    ∧ (handleOrderFilled eng e).state.position.avgPrice = 0 := by
  have hsq : (if e.side = some "sell" then -(jsAbs (e.qty.getD 0)) else jsAbs (e.qty.getD 0))
      = -eng.state.position.qty := by
    rw [hqty, hside]
    by_cases hpos : 0 < eng.state.position.qty
    · simp only [if_pos hpos, Option.getD_some, Option.some.injEq, if_true, jsAbs_jsAbs]
      rw [jsAbs_eq_abs, abs_of_pos hpos]
    · have hneg : eng.state.position.qty < 0 := lt_of_le_of_ne (not_lt.mp hpos) hq
      simp only [if_neg hpos, Option.getD_some, Option.some.injEq, jsAbs_jsAbs]
      rw [if_neg (by simp [sellNeBuy.symm]), jsAbs_eq_abs, abs_of_neg hneg]
  have hfp : (e.price.or eng.state.lastPrice).getD 0 = P := by
    rw [hprice]
    rfl
  simp only [handleOrderFilled]
  rw [queueRiskEvents_state]
  simp only [hsq, hfp]
  refine ⟨by ring, by ring, ?_⟩
  rw [show eng.state.position.qty + -eng.state.position.qty = 0 from by ring]
  simp

theorem jsAbs_zero : jsAbs 0 = 0 := by
  rw [jsAbs_eq_abs, abs_zero]

/-- The state effect of `handleLiquidation`: liquidated flag set, position
force-closed to quantity 0 (average price reset when a position was open), cash
credited with `qty × liquidationPrice` and debited the penalty's absolute
value. -/
theorem setLiquidated_frame (eng : Engine) :
    (setLiquidated eng).state.cash = eng.state.cash
    ∧ (setLiquidated eng).state.position = eng.state.position
    ∧ (setLiquidated eng).state.lastPrice = eng.state.lastPrice
    ∧ (setLiquidated eng).state.liquidated = true :=
  ⟨rfl, rfl, rfl, rfl⟩

theorem handleLiquidation_state (eng : Engine) (e : Event) :
    (handleLiquidation eng e).state.liquidated = true
    ∧ (handleLiquidation eng e).state.position.qty = 0
    ∧ (eng.state.position.qty ≠ 0 →
        (handleLiquidation eng e).state.position.avgPrice = 0
        ∧ (handleLiquidation eng e).state.cash
            = eng.state.cash + eng.state.position.qty
                * ((e.price.or eng.state.lastPrice).getD eng.state.position.avgPrice)
              - jsAbs (e.penalty.getD 0))
    ∧ (eng.state.position.qty = 0 →
        (handleLiquidation eng e).state.cash
          = eng.state.cash - jsAbs (e.penalty.getD 0)) := by
  by_cases hq : eng.state.position.qty ≠ 0
  · have hc := handleOrderFilled_close (setLiquidated eng)
      (liquidationFillEvent (setLiquidated eng) e)
      ((e.price.or eng.state.lastPrice).getD eng.state.position.avgPrice)
      hq rfl rfl rfl
    have hl := handleOrderFilled_liquidated (setLiquidated eng)
      (liquidationFillEvent (setLiquidated eng) e)
    rw [(setLiquidated_frame eng).1] at hc
    have hqq : (setLiquidated eng).state.position.qty = eng.state.position.qty := rfl
    rw [hqq] at hc
    have hll : (setLiquidated eng).state.liquidated = true := rfl
    rw [hll] at hl
    simp only [handleLiquidation]
    rw [if_pos (show (setLiquidated eng).state.position.qty ≠ 0 from hq)]
    by_cases hp : e.penalty.getD 0 ≠ 0
    · rw [if_pos hp]
      refine ⟨hl, hc.2.1, fun _ => ⟨hc.2.2, ?_⟩, fun hz => absurd hz hq⟩
      rw [hc.1]
    · have hp0 : e.penalty.getD 0 = 0 := not_ne_iff.mp hp
      rw [if_neg hp]
      refine ⟨hl, hc.2.1, fun _ => ⟨hc.2.2, ?_⟩, fun hz => absurd hz hq⟩
      rw [hc.1, hp0, jsAbs_zero]
      ring
  · have hq0 : eng.state.position.qty = 0 := not_ne_iff.mp hq
    simp only [handleLiquidation]
    rw [if_neg (show ¬ (setLiquidated eng).state.position.qty ≠ 0 from hq)]
    by_cases hp : e.penalty.getD 0 ≠ 0
    · rw [if_pos hp]
      exact ⟨rfl, hq0, fun hnz => absurd hq0 hnz, fun _ => rfl⟩
    · have hp0 : e.penalty.getD 0 = 0 := not_ne_iff.mp hp
      rw [if_neg hp]
      refine ⟨rfl, hq0, fun hnz => absurd hq0 hnz, fun _ => ?_⟩
      rw [hp0, jsAbs_zero]
      exact (sub_zero eng.state.cash).symm

theorem processEvent_liquidation (σs σe : Type) (C : Collab σs σe) (eng : Engine) (ss : σs)
    (es : σe) (e : Event) (htype : e.type = .liquidated) :
    (processEvent C eng ss es e).1 = updateEquity (handleLiquidation eng e) e.timestamp := by
  simp only [processEvent, htype]

theorem processEvent_sets_liquidated (σs σe : Type) (C : Collab σs σe) (eng : Engine)
    (ss : σs) (es : σe) (e : Event) (htype : e.type = .liquidated) :
    (processEvent C eng ss es e).1.state.liquidated = true := by
  rw [processEvent_liquidation σs σe C eng ss es e htype, updateEquity_liquidated]
  exact (handleLiquidation_state eng e).1

theorem runLoop_no_liquidation_before_last (σs σe : Type) (C : Collab σs σe) :
    ∀ (fuel : ℕ) (eng : Engine) (ss : σs) (es : σe),
      ∀ p ∈ (runLoop C fuel eng ss es).trace.dropLast, p.1.type ≠ EventType.liquidated := by
  intro fuel
  induction fuel with
  | zero =>
    intro eng ss es p hp
    simp [runLoop] at hp
  | succ n ih =>
    intro eng ss es p hp
    cases hq : eng.eventQueue with
    | nil =>
      simp [runLoop, hq] at hp
    | cons e rest =>
      simp only [runLoop, hq] at hp
      by_cases hl : (processEvent C { eng with eventQueue := rest } ss es e).1.state.liquidated
          = true
      · rw [if_pos hl] at hp
        simp at hp
      · rw [if_neg hl] at hp
        rcases ht : (runLoop C n (processEvent C { eng with eventQueue := rest } ss es e).1
            (processEvent C { eng with eventQueue := rest } ss es e).2.1
            (processEvent C { eng with eventQueue := rest } ss es e).2.2).trace with _ | ⟨q, qs⟩
        · rw [ht] at hp
          simp at hp
        · rw [ht, List.dropLast_cons₂] at hp
          rcases List.mem_cons.mp hp with heq | hmem
          · rw [heq]
            intro habs
            exact hl (processEvent_sets_liquidated σs σe C { eng with eventQueue := rest }
              ss es e habs)
          · have hrec := ih (processEvent C { eng with eventQueue := rest } ss es e).1
              (processEvent C { eng with eventQueue := rest } ss es e).2.1
              (processEvent C { eng with eventQueue := rest } ss es e).2.2 p
            rw [ht] at hrec
            exact hrec hmem

/-! ## Claim C3 -/

/-- C3: processing a `liquidated` event force-closes any open position at the
liquidation price (`event.price ?? lastPrice ?? avgPrice`) through a synthesized
opposite-side order-filled event for the full remaining quantity — leaving
quantity 0, average price 0 and cash credited with `qty × price` — deducts the
penalty from cash, marks the run liquidated, and is terminal: in any bounded
run, no event still pending in the queue is processed after a `liquidated`
event (it can only be the last dispatched event). -/
theorem liquidation_spec :
    (∀ (σs σe : Type) (C : Collab σs σe) (eng : Engine) (ss : σs) (es : σe) (e : Event),
      e.type = .liquidated →
      (processEvent C eng ss es e).1.state.liquidated = true
      ∧ (processEvent C eng ss es e).1.state.position.qty = 0
      ∧ (eng.state.position.qty ≠ 0 →
          (processEvent C eng ss es e).1.state.position.avgPrice = 0
          ∧ (processEvent C eng ss es e).1.state.cash
              = eng.state.cash + eng.state.position.qty
                  * ((e.price.or eng.state.lastPrice).getD eng.state.position.avgPrice)
                - |e.penalty.getD 0|)
      ∧ (eng.state.position.qty = 0 →
          (processEvent C eng ss es e).1.state.cash
            = eng.state.cash - |e.penalty.getD 0|))
    ∧ (∀ (σs σe : Type) (C : Collab σs σe) (fuel : ℕ) (eng : Engine) (ss : σs) (es : σe),
        ∀ p ∈ (runLoop C fuel eng ss es).trace.dropLast, p.1.type ≠ EventType.liquidated) := by
  constructor
  · intro σs σe C eng ss es e htype
    rw [processEvent_liquidation σs σe C eng ss es e htype]
    have h := handleLiquidation_state eng e
    rw [← jsAbs_eq_abs]
    exact ⟨by rw [updateEquity_liquidated]; exact h.1,
      by rw [updateEquity_position]; exact h.2.1,
      fun hq => ⟨by rw [updateEquity_position]; exact (h.2.2.1 hq).1,
        by rw [updateEquity_cash]; exact (h.2.2.1 hq).2⟩,
      fun hq => by rw [updateEquity_cash]; exact h.2.2.2 hq⟩
  · exact runLoop_no_liquidation_before_last

def cfgC3 : Config := ⟨.spot, some 100, none, 0, 0, 0, 0, 0⟩

def engC3 : Engine :=
  let e0 := resetEngine 1 cfgC3
  { e0 with state := { e0.state with position := ⟨2, 50⟩ } }

def evC3 : Event := { mkEvent .liquidated 5 with price := some 40, penalty := some 3 }

def evT1 : Event := { mkEvent .tick 0 with price := some 10 }

def evT2 : Event := { mkEvent .tick 1 with price := some 10 }

theorem liquidation_spec_witness :
    (processEvent trivialCollab engC3 () () evC3).1.state.liquidated = true
    ∧ (processEvent trivialCollab engC3 () () evC3).1.state.position.qty = 0
    ∧ (processEvent trivialCollab engC3 () () evC3).1.state.cash = 177
    ∧ ({ mkEvent .tick 0 with priority := 10, price := some 10 } : Event).type
        ≠ EventType.liquidated := by
  have h := liquidation_spec.1 Unit Unit trivialCollab engC3 () () evC3 rfl
  have hq : engC3.state.position.qty ≠ 0 := by
    norm_num [engC3, cfgC3, resetEngine]
  have htr : (runLoop trivialCollab 5 (enqueueEvents (resetEngine 1 cfgC3) [evT1, evT2])
      () ()).trace.dropLast
      = [({ mkEvent .tick 0 with priority := 10, price := some 10 },
          [{ mkEvent .tick 1 with priority := 10, seq := 1, price := some 10 }])] := by
    norm_num [runLoop, enqueueEvents, normalizeEvent, EVENT_PRIORITY, resetEngine, cfgC3,
      evT1, evT2, mkEvent, processEvent, handleMarketEvent, createContext, trivialCollab,
      queueFundingEventsUntil, queueRiskEvents, updateEquity, getRiskPrice, isMarginMarket,
      calculateUnrealizedPnl, List.insertionSort, List.orderedInsert, eventLE, compareEvents,
      Option.or]
  have h2 := liquidation_spec.2 Unit Unit trivialCollab 5
    (enqueueEvents (resetEngine 1 cfgC3) [evT1, evT2]) () ()
    ({ mkEvent .tick 0 with priority := 10, price := some 10 },
      [{ mkEvent .tick 1 with priority := 10, seq := 1, price := some 10 }])
    (by rw [htr]; simp)
  refine ⟨h.1, h.2.1, ?_, h2⟩
  rw [(h.2.2.1 hq).2]
  norm_num [engC3, cfgC3, resetEngine, evC3, mkEvent, Option.or]

/-! ## Position / equity-series invariants -/

theorem handleMarketEvent_position (σs σe : Type) (C : Collab σs σe) (eng : Engine)
    (ss : σs) (es : σe) (e : Event) :
    (handleMarketEvent C eng ss es e).1.state.position = eng.state.position := by
  simp only [handleMarketEvent, queueRiskEvents_state, queueFundingEventsUntil_state,
    enqueueEvents_state]

theorem handleMarketEvent_equitySeries (σs σe : Type) (C : Collab σs σe) (eng : Engine)
    (ss : σs) (es : σe) (e : Event) :
    (handleMarketEvent C eng ss es e).1.equitySeries = eng.equitySeries := by
  simp only [handleMarketEvent, queueRiskEvents_equitySeries,
    queueFundingEventsUntil_equitySeries, enqueueEvents_equitySeries]

theorem handleSignal_state (σs σe : Type) (C : Collab σs σe) (eng : Engine) (es : σe)
    (e : Event) : (handleSignal C eng es e).1.state = eng.state := rfl

theorem handleSignal_equitySeries (σs σe : Type) (C : Collab σs σe) (eng : Engine) (es : σe)
    (e : Event) : (handleSignal C eng es e).1.equitySeries = eng.equitySeries := rfl

theorem handleOrderSubmitted_state (eng : Engine) (e : Event) :
    (handleOrderSubmitted eng e).state = eng.state := rfl

theorem handleOrderSubmitted_equitySeries (eng : Engine) (e : Event) :
    (handleOrderSubmitted eng e).equitySeries = eng.equitySeries := rfl

theorem handleOrderFilled_equitySeries (eng : Engine) (e : Event) :
    (handleOrderFilled eng e).equitySeries = eng.equitySeries := by
  simp only [handleOrderFilled, queueRiskEvents_equitySeries]

theorem handleOrderFilled_posInv (eng : Engine) (e : Event) :
    (handleOrderFilled eng e).state.position.qty = 0 →
    (handleOrderFilled eng e).state.position.avgPrice = 0 := by
  simp only [handleOrderFilled, queueRiskEvents_state]
  intro h
  rw [if_pos h]

theorem handleOrderCancelled_state (eng : Engine) (e : Event) :
    (handleOrderCancelled eng e).state = eng.state := rfl

theorem handleOrderCancelled_equitySeries (eng : Engine) (e : Event) :
    (handleOrderCancelled eng e).equitySeries = eng.equitySeries := rfl

theorem handleFundingPayment_position (eng : Engine) (e : Event) :
    (handleFundingPayment eng e).state.position = eng.state.position := by
  simp only [handleFundingPayment, queueRiskEvents_state]

theorem handleFundingPayment_equitySeries (eng : Engine) (e : Event) :
    (handleFundingPayment eng e).equitySeries = eng.equitySeries := by
  simp only [handleFundingPayment, queueRiskEvents_equitySeries]

theorem handleMarginUpdate_position (eng : Engine) (e : Event) :
    (handleMarginUpdate eng e).state.position = eng.state.position := rfl

theorem handleMarginUpdate_equitySeries (eng : Engine) (e : Event) :
    (handleMarginUpdate eng e).equitySeries = eng.equitySeries := rfl

theorem handleLiquidation_position_of_zero (eng : Engine) (e : Event)
    (hq : eng.state.position.qty = 0) :
    (handleLiquidation eng e).state.position = eng.state.position := by
  simp only [handleLiquidation]
  rw [if_neg (show ¬ (setLiquidated eng).state.position.qty ≠ 0 from not_ne_iff.mpr hq)]
  by_cases hp : e.penalty.getD 0 ≠ 0
  · rw [if_pos hp]
    rfl
  · rw [if_neg hp]
    rfl

theorem handleLiquidation_equitySeries (eng : Engine) (e : Event) :
    (handleLiquidation eng e).equitySeries = eng.equitySeries := by
  simp only [handleLiquidation]
  by_cases hq : (setLiquidated eng).state.position.qty ≠ 0
  · rw [if_pos hq]
    by_cases hp : e.penalty.getD 0 ≠ 0
    · rw [if_pos hp]
      exact handleOrderFilled_equitySeries _ _
    · rw [if_neg hp]
      exact handleOrderFilled_equitySeries _ _
  · rw [if_neg hq]
    by_cases hp : e.penalty.getD 0 ≠ 0
    · rw [if_pos hp]
      rfl
    · rw [if_neg hp]
      rfl

theorem handleLiquidation_posInv (eng : Engine) (e : Event)
    (hinv : eng.state.position.qty = 0 → eng.state.position.avgPrice = 0) :
    (handleLiquidation eng e).state.position.qty = 0 →
    (handleLiquidation eng e).state.position.avgPrice = 0 := by
  intro _
  by_cases hq : eng.state.position.qty ≠ 0
  · exact ((handleLiquidation_state eng e).2.2.1 hq).1
  · have hq0 := not_ne_iff.mp hq
    rw [handleLiquidation_position_of_zero eng e hq0]
    exact hinv hq0

theorem updateEquity_equitySeries (eng : Engine) (ts : ℤ) :
    (updateEquity eng ts).equitySeries
      = eng.equitySeries ++
        [⟨ts, eng.state.cash + calculateUnrealizedPnl eng.state.position
              (some (getRiskPrice eng)), eng.state.cash, eng.state.margin,
          eng.state.maintenanceMargin, eng.state.position.qty, eng.state.position.avgPrice,
          eng.state.lastPrice, getRiskPrice eng⟩] := rfl

theorem updateEquity_inv_helper (h1 : Engine) (ts : ℤ) (eng : Engine)
    (hpos : h1.state.position.qty = 0 → h1.state.position.avgPrice = 0)
    (hser : h1.equitySeries = eng.equitySeries) :
    ((updateEquity h1 ts).state.position.qty = 0 →
      (updateEquity h1 ts).state.position.avgPrice = 0)
    ∧ ∀ x ∈ (updateEquity h1 ts).equitySeries,
        x ∈ eng.equitySeries ∨ (x.positionQty = 0 → x.positionAvgPrice = 0) := by
  refine ⟨fun hq => hpos hq, ?_⟩
  intro x hx
  rw [updateEquity_equitySeries, hser] at hx
  rcases List.mem_append.mp hx with h | h
  · exact Or.inl h
  · right
    rw [List.mem_singleton.mp h]
    exact fun hq => hpos hq

/-- Each `processEvent` preserves the "average price is 0 whenever quantity is 0"
state invariant, and every equity entry of the result is either an old entry or
a snapshot of the (invariant-satisfying) post-handler position. -/
theorem processEvent_posInv (σs σe : Type) (C : Collab σs σe) (eng : Engine) (ss : σs)
    (es : σe) (e : Event)
    (hinv : eng.state.position.qty = 0 → eng.state.position.avgPrice = 0) :
    ((processEvent C eng ss es e).1.state.position.qty = 0 →
      (processEvent C eng ss es e).1.state.position.avgPrice = 0)
    ∧ ∀ x ∈ (processEvent C eng ss es e).1.equitySeries,
        x ∈ eng.equitySeries ∨ (x.positionQty = 0 → x.positionAvgPrice = 0) := by
  cases htype : e.type
  all_goals simp only [processEvent, htype]
  case tick =>
    have hpos : (handleMarketEvent C eng ss es e).1.state.position.qty = 0 →
        (handleMarketEvent C eng ss es e).1.state.position.avgPrice = 0 := by
      rw [handleMarketEvent_position]
      exact hinv
    exact updateEquity_inv_helper _ _ eng hpos (handleMarketEvent_equitySeries σs σe C eng ss es e)
  case candle =>
    have hpos : (handleMarketEvent C eng ss es e).1.state.position.qty = 0 →
        (handleMarketEvent C eng ss es e).1.state.position.avgPrice = 0 := by
      rw [handleMarketEvent_position]
      exact hinv
    exact updateEquity_inv_helper _ _ eng hpos (handleMarketEvent_equitySeries σs σe C eng ss es e)
  case signal_generated =>
    have hpos : (handleSignal C eng es e).1.state.position.qty = 0 →
        (handleSignal C eng es e).1.state.position.avgPrice = 0 := by
      rw [handleSignal_state]
      exact hinv
    exact updateEquity_inv_helper _ _ eng hpos (handleSignal_equitySeries σs σe C eng es e)
  case order_submitted =>
    exact updateEquity_inv_helper _ _ eng hinv (handleOrderSubmitted_equitySeries eng e)
  case order_filled =>
    exact updateEquity_inv_helper _ _ eng (handleOrderFilled_posInv eng e)
      (handleOrderFilled_equitySeries eng e)
  case order_cancelled =>
    exact updateEquity_inv_helper _ _ eng hinv (handleOrderCancelled_equitySeries eng e)
  case funding_payment =>
    have hpos : (handleFundingPayment eng e).state.position.qty = 0 →
        (handleFundingPayment eng e).state.position.avgPrice = 0 := by
      rw [handleFundingPayment_position]
      exact hinv
    exact updateEquity_inv_helper _ _ eng hpos (handleFundingPayment_equitySeries eng e)
  case margin_update =>
    have hpos : (handleMarginUpdate eng e).state.position.qty = 0 →
        (handleMarginUpdate eng e).state.position.avgPrice = 0 := by
      rw [handleMarginUpdate_position]
      exact hinv
    exact updateEquity_inv_helper _ _ eng hpos (handleMarginUpdate_equitySeries eng e)
  case liquidated =>
    exact updateEquity_inv_helper _ _ eng (handleLiquidation_posInv eng e hinv)
      (handleLiquidation_equitySeries eng e)

theorem runLoop_posInv (σs σe : Type) (C : Collab σs σe) :
    ∀ (fuel : ℕ) (eng : Engine) (ss : σs) (es : σe),
      (eng.state.position.qty = 0 → eng.state.position.avgPrice = 0) →
      (∀ x ∈ eng.equitySeries, x.positionQty = 0 → x.positionAvgPrice = 0) →
      ∀ x ∈ (runLoop C fuel eng ss es).eng.equitySeries,
        x.positionQty = 0 → x.positionAvgPrice = 0 := by
  intro fuel
  induction fuel with
  | zero =>
    intro eng ss es _ hser x hx
    simp only [runLoop] at hx
    exact hser x hx
  | succ n ih =>
    intro eng ss es hinv hser x hx
    cases hq : eng.eventQueue with
    | nil =>
      simp only [runLoop, hq] at hx
      exact hser x hx
    | cons e rest =>
      simp only [runLoop, hq] at hx
      have hstep := processEvent_posInv σs σe C { eng with eventQueue := rest } ss es e hinv
      have hser1 : ∀ y ∈ (processEvent C { eng with eventQueue := rest } ss es e).1.equitySeries,
          y.positionQty = 0 → y.positionAvgPrice = 0 := by
        intro y hy
        rcases hstep.2 y hy with hold | hnew
        · exact hser y hold
        · exact hnew
      by_cases hl : (processEvent C { eng with eventQueue := rest } ss es e).1.state.liquidated
          = true
      · rw [if_pos hl] at hx
        exact hser1 x hx
      · rw [if_neg hl] at hx
        exact ih (processEvent C { eng with eventQueue := rest } ss es e).1
          (processEvent C { eng with eventQueue := rest } ss es e).2.1
          (processEvent C { eng with eventQueue := rest } ss es e).2.2
          hstep.1 hser1 x hx

/-! ## Claim C7 -/

def cfgC7 : Config := ⟨.spot, some 0, none, 0, 0, 0, 0, 0⟩

def evC7 : Event :=
  { mkEvent .order_filled 0 with side := some "buy", qty := some 1, price := some 0 }

/-- C7 counterexample: a run whose input stream contains a buy fill at price 0
produces an equity entry with position quantity 1 but average price 0 — the
"exactly when" (iff) form of the claim is false on the code. -/
theorem equity_series_avg_price_counterexample :
    ¬ (∀ en ∈ (runModel trivialCollab 1 cfgC7 [evC7] 5).eng.equitySeries,
        (en.positionAvgPrice = 0 ↔ en.positionQty = 0)) := by
  have hser : (runModel trivialCollab 1 cfgC7 [evC7] 5).eng.equitySeries
      = [⟨0, 0, 0, 0, 0, 1, 0, none, 0⟩] := by
    norm_num [runModel, runLoop, enqueueEvents, normalizeEvent, EVENT_PRIORITY, resetEngine,
      cfgC7, evC7, mkEvent, processEvent, handleOrderFilled, queueRiskEvents, updateEquity,
      getRiskPrice, isMarginMarket, calculateUnrealizedPnl, List.insertionSort,
      List.orderedInsert, trivialCollab, ordersSet, jsAbs, jsign, Option.or, buyNeSell]
  intro h
  have := (h ⟨0, 0, 0, 0, 0, 1, 0, none, 0⟩ (by rw [hser]; exact List.mem_singleton_self _)).mp
    rfl
  norm_num at this

/-- C7 (amended): in every equity-series entry of every run, the recorded average
price is 0 whenever the recorded position quantity is 0.  (The converse direction
of the original claim fails: a fill at price 0 yields average price 0 with a
non-zero quantity.) -/
theorem equity_series_avg_price_spec (σs σe : Type) (C : Collab σs σe) (ctorSeed : ℤ)
    (cfg : Config) (inputs : List Event) (fuel : ℕ) :
    ∀ en ∈ (runModel C ctorSeed cfg inputs fuel).eng.equitySeries,
      en.positionQty = 0 → en.positionAvgPrice = 0 := by
  intro en hen
  refine runLoop_posInv σs σe C fuel (enqueueEvents (resetEngine ctorSeed cfg) inputs)
    C.stratInit C.execInit (fun _ => ?_) (fun x hx => ?_) en hen
  · rw [enqueueEvents_state]
    cases hcash : cfg.initialCash <;> simp [resetEngine, hcash]
  · rw [enqueueEvents_equitySeries] at hx
    cases hcash : cfg.initialCash <;> simp [resetEngine, hcash] at hx

def cfgC7w : Config := ⟨.spot, some 5, none, 0, 0, 0, 0, 0⟩

def evC7w : Event := { mkEvent .tick 3 with price := some 7 }

theorem equity_series_avg_price_spec_witness :
    (⟨3, 5, 5, 0, 0, 0, 0, some 7, 7⟩ : EquityEntry)
        ∈ (runModel trivialCollab 1 cfgC7w [evC7w] 2).eng.equitySeries
    ∧ (⟨3, 5, 5, 0, 0, 0, 0, some 7, 7⟩ : EquityEntry).positionQty = 0
    ∧ (⟨3, 5, 5, 0, 0, 0, 0, some 7, 7⟩ : EquityEntry).positionAvgPrice = 0 := by
  have hser : (runModel trivialCollab 1 cfgC7w [evC7w] 2).eng.equitySeries
      = [⟨3, 5, 5, 0, 0, 0, 0, some 7, 7⟩] := by
    norm_num [runModel, runLoop, enqueueEvents, normalizeEvent, EVENT_PRIORITY, resetEngine,
      cfgC7w, evC7w, mkEvent, processEvent, handleMarketEvent, createContext, trivialCollab,
      queueFundingEventsUntil, queueRiskEvents, updateEquity, getRiskPrice, isMarginMarket,
      calculateUnrealizedPnl, List.insertionSort, List.orderedInsert, eventLE, compareEvents,
      jsAbs, Option.or]
  have hmem : (⟨3, 5, 5, 0, 0, 0, 0, some 7, 7⟩ : EquityEntry)
      ∈ (runModel trivialCollab 1 cfgC7w [evC7w] 2).eng.equitySeries := by
    rw [hser]
    exact List.mem_singleton_self _
  exact ⟨hmem, rfl, equity_series_avg_price_spec Unit Unit trivialCollab 1 cfgC7w [evC7w] 2
    ⟨3, 5, 5, 0, 0, 0, 0, some 7, 7⟩ hmem rfl⟩

/-! ## Claim C8 -/

theorem handleFundingPayment_cash (eng : Engine) (e : Event) :
    (handleFundingPayment eng e).state.cash = eng.state.cash + e.amount.getD 0 := by
  simp only [handleFundingPayment, queueRiskEvents_state]

def cfgC8 : Config := ⟨.spot, some 1000, none, 1/100, 10, 0, 0, 0⟩

def evC8a : Event := { mkEvent .tick 0 with price := some 100 }

def evC8b : Event :=
  { mkEvent .order_filled 2 with side := some "buy", qty := some 1, price := some 100 }

def evC8c : Event := { mkEvent .tick 5 with price := some 100 }

def evC8d : Event := { mkEvent .tick 20 with price := some 200 }

/-- C8 counterexample: with funding rate 0.01 and interval 10 ms, a position of
quantity 1 opened at price 100 and a funding boundary at t = 15 that is only
caught up during the market event at t = 20 (after the last price moved to 200),
the scheduled funding event carries amount `−(1 × 200) × 0.01 = −2` — the
notional at scheduling time — whereas the position notional at the funding
instant (engine state after every event with timestamp ≤ 15: quantity 1, last
price 100) gives `−(1 × 100) × 0.01 = −1`.  The dispatched funding log entry
records −2 and not −1, refuting the claim at this input. -/
theorem funding_amount_counterexample :
    ((runModel trivialCollab 1 cfgC8 [evC8a, evC8b, evC8c, evC8d] 10).eng.tradeLogs.map
        (fun en => (en.type, en.amount))).get? 1 = some (.funding_payment, some (-2))
    ∧ ((runModel trivialCollab 1 cfgC8 [evC8a, evC8b, evC8c, evC8d] 10).eng.equitySeries.map
        (fun en => (en.timestamp, en.positionQty, en.lastPrice))).get? 2
        = some (5, 1, some 100)
    ∧ ¬ ((runModel trivialCollab 1 cfgC8 [evC8a, evC8b, evC8c, evC8d] 10).eng.tradeLogs.map
        (fun en => (en.type, en.amount))).get? 1
        = some (.funding_payment, some (-(1 * 100) * (1/100))) := by
  have hrun : (runModel trivialCollab 1 cfgC8 [evC8a, evC8b, evC8c, evC8d] 10).eng.tradeLogs.map
        (fun en => (en.type, en.amount)) = [(.order_filled, none), (.funding_payment, some (-2))]
      ∧ (runModel trivialCollab 1 cfgC8 [evC8a, evC8b, evC8c, evC8d] 10).eng.equitySeries.map
        (fun en => (en.timestamp, en.positionQty, en.lastPrice))
        = [(0, 0, some 100), (2, 1, some 100), (5, 1, some 100), (20, 1, some 200),
           (15, 1, some 200)] := by
    constructor <;>
      norm_num [runModel, runLoop, enqueueEvents, normalizeEvent, EVENT_PRIORITY, resetEngine,
        cfgC8, evC8a, evC8b, evC8c, evC8d, mkEvent, mkLogEntry, processEvent, handleMarketEvent,
        handleOrderFilled, handleFundingPayment, createContext, trivialCollab,
        queueFundingEventsUntil, queueFundingLoop, fundingEvent, queueRiskEvents, updateEquity,
        getRiskPrice, isMarginMarket, calculateUnrealizedPnl, List.insertionSort,
        List.orderedInsert, eventLE, compareEvents, ordersSet, jsAbs, jsign, Option.or,
        buyNeSell]
  refine ⟨by rw [hrun.1]; rfl, by rw [hrun.2]; rfl, ?_⟩
  rw [hrun.1]
  norm_num

/-- C8 (amended): every funding-payment event the engine schedules is a
`fundingEvent` of the engine state current at scheduling time (the catch-up loop
threads the engine through `enqueueEvents`, which never changes `state`), and it
carries amount `−(|qty| × |risk price at scheduling time|) × funding rate`;
processing a funding-payment event adds its amount to cash and changes neither
the position quantity nor the average price.  (The notional is taken at
scheduling time — during the market event that performs the catch-up — not at
the funding instant the event's timestamp names.) -/
theorem funding_payment_spec :
    (∀ (eng : Engine) (nft : ℤ) (rate : ℚ),
      (fundingEvent eng nft rate).type = .funding_payment
      ∧ (fundingEvent eng nft rate).timestamp = nft
      ∧ (fundingEvent eng nft rate).amount
          = some (-(|eng.state.position.qty| * |getRiskPrice eng|) * rate))
    ∧ (∀ (n : ℕ) (eng : Engine) (nft interval : ℤ) (rate : ℚ),
        (queueFundingLoop n eng nft interval rate).state = eng.state
        ∧ queueFundingLoop (n + 1) eng nft interval rate
            = queueFundingLoop n (enqueueEvents eng [fundingEvent eng nft rate])
                (nft + interval) interval rate)
    ∧ (∀ (σs σe : Type) (C : Collab σs σe) (eng : Engine) (ss : σs) (es : σe) (e : Event),
        e.type = .funding_payment →
        (processEvent C eng ss es e).1.state.cash = eng.state.cash + e.amount.getD 0
        ∧ (processEvent C eng ss es e).1.state.position = eng.state.position) := by
  refine ⟨fun eng nft rate => ⟨rfl, rfl, ?_⟩,
    fun n eng nft interval rate => ⟨queueFundingLoop_state _ _ _ _ _, rfl⟩,
    fun σs σe C eng ss es e htype => ?_⟩
  · simp only [fundingEvent, jsAbs_eq_abs]
  · simp only [processEvent, htype]
    exact ⟨by rw [updateEquity_cash, handleFundingPayment_cash],
      by rw [updateEquity_position, handleFundingPayment_position]⟩

def evC8w : Event := { mkEvent .funding_payment 3 with amount := some 5 }

theorem funding_payment_spec_witness :
    (processEvent trivialCollab (resetEngine 1 cfgC8) () () evC8w).1.state.cash
      = (resetEngine 1 cfgC8).state.cash + 5
    ∧ (processEvent trivialCollab (resetEngine 1 cfgC8) () () evC8w).1.state.position
      = (resetEngine 1 cfgC8).state.position
    ∧ (fundingEvent (resetEngine 1 cfgC8) 3 (1/100)).amount
      = some (-(|(resetEngine 1 cfgC8).state.position.qty|
          * |getRiskPrice (resetEngine 1 cfgC8)|) * (1/100)) := by
  have h := funding_payment_spec.2.2 Unit Unit trivialCollab (resetEngine 1 cfgC8) () () evC8w
    rfl
  exact ⟨by rw [h.1]; rfl, h.2,
    (funding_payment_spec.1 (resetEngine 1 cfgC8) 3 (1/100)).2.2⟩

/-! ## Queue sortedness invariants -/

theorem sorted_enqueueEvents (eng : Engine) (events : List Event) :
    List.Sorted eventLE (enqueueEvents eng events).eventQueue := by
  simp only [enqueueEvents]
  exact List.sorted_insertionSort eventLE _

theorem sorted_queueFundingLoop : ∀ (n : ℕ) (eng : Engine) (nft interval : ℤ) (rate : ℚ),
    List.Sorted eventLE eng.eventQueue →
    List.Sorted eventLE (queueFundingLoop n eng nft interval rate).eventQueue
  | 0, _, _, _, _, h => h
  | n + 1, eng, nft, interval, rate, _ =>
      sorted_queueFundingLoop n (enqueueEvents eng [fundingEvent eng nft rate]) (nft + interval)
        interval rate (sorted_enqueueEvents _ _)

theorem sorted_queueFundingEventsUntil (eng : Engine) (timestamp : ℤ)
    (h : List.Sorted eventLE eng.eventQueue) :
    List.Sorted eventLE (queueFundingEventsUntil eng timestamp).eventQueue := by
  simp only [queueFundingEventsUntil]
  split
  · exact h
  · split
    · exact h
    · split
      · exact sorted_queueFundingLoop _ _ _ _ _ h
      · exact sorted_queueFundingLoop _ _ _ _ _ h

theorem sorted_queueRiskEvents (eng : Engine) (timestamp : ℤ) (trigger : String)
    (h : List.Sorted eventLE eng.eventQueue) :
    List.Sorted eventLE (queueRiskEvents eng timestamp trigger).eventQueue := by
  simp only [queueRiskEvents]
  split
  · exact h
  · split
    · exact sorted_enqueueEvents _ _
    · exact sorted_enqueueEvents _ _

theorem sorted_handleMarketEvent (σs σe : Type) (C : Collab σs σe) (eng : Engine) (ss : σs)
    (es : σe) (e : Event) :
    List.Sorted eventLE (handleMarketEvent C eng ss es e).1.eventQueue := by
  simp only [handleMarketEvent]
  exact sorted_queueRiskEvents _ _ _ (sorted_queueFundingEventsUntil _ _
    (sorted_enqueueEvents _ _))

theorem sorted_handleOrderFilled (eng : Engine) (e : Event)
    (h : List.Sorted eventLE eng.eventQueue) :
    List.Sorted eventLE (handleOrderFilled eng e).eventQueue := by
  simp only [handleOrderFilled]
  exact sorted_queueRiskEvents _ _ _ h

theorem sorted_handleLiquidation (eng : Engine) (e : Event)
    (h : List.Sorted eventLE eng.eventQueue) :
    List.Sorted eventLE (handleLiquidation eng e).eventQueue := by
  simp only [handleLiquidation]
  split
  · split
    · exact sorted_handleOrderFilled _ _ h
    · exact h
  · split
    · exact sorted_handleOrderFilled _ _ h
    · exact h

theorem sorted_processEvent (σs σe : Type) (C : Collab σs σe) (eng : Engine) (ss : σs)
    (es : σe) (e : Event) (h : List.Sorted eventLE eng.eventQueue) :
    List.Sorted eventLE (processEvent C eng ss es e).1.eventQueue := by
  cases htype : e.type
  all_goals simp only [processEvent, htype]
  case tick => exact sorted_handleMarketEvent σs σe C eng ss es e
  case candle => exact sorted_handleMarketEvent σs σe C eng ss es e
  case signal_generated => exact sorted_enqueueEvents _ _
  case order_submitted => exact h
  case order_filled => exact sorted_handleOrderFilled _ _ h
  case order_cancelled => exact h
  case funding_payment =>
    simp only [handleFundingPayment]
    exact sorted_queueRiskEvents _ _ _ h
  case margin_update => exact h
  case liquidated => exact sorted_handleLiquidation _ _ h

/-- In a run loop starting from a sorted queue, every dispatched event's
`(timestamp, priority, sequence)` key is ≤ the key of every event still pending
at the moment of its dispatch. -/
theorem runLoop_trace_pending (σs σe : Type) (C : Collab σs σe) :
    ∀ (fuel : ℕ) (eng : Engine) (ss : σs) (es : σe),
      List.Sorted eventLE eng.eventQueue →
      ∀ p ∈ (runLoop C fuel eng ss es).trace, ∀ e2 ∈ p.2, eventKeyLE p.1 e2 := by
  intro fuel
  induction fuel with
  | zero =>
    intro eng ss es _ p hp
    simp [runLoop] at hp
  | succ n ih =>
    intro eng ss es hs p hp
    cases hq : eng.eventQueue with
    | nil =>
      simp [runLoop, hq] at hp
    | cons e rest =>
      rw [hq] at hs
      have hhead : ∀ e2 ∈ rest, eventLE e e2 := (List.sorted_cons.mp hs).1
      have hrest : List.Sorted eventLE rest := (List.sorted_cons.mp hs).2
      simp only [runLoop, hq] at hp
      by_cases hl : (processEvent C { eng with eventQueue := rest } ss es e).1.state.liquidated
          = true
      · rw [if_pos hl] at hp
        simp only [List.mem_singleton] at hp
        rw [hp]
        intro e2 he2
        exact (eventLE_iff_keyLE e e2).mp (hhead e2 he2)
      · rw [if_neg hl] at hp
        rcases List.mem_cons.mp hp with heq | hmem
        · rw [heq]
          intro e2 he2
          exact (eventLE_iff_keyLE e e2).mp (hhead e2 he2)
        · exact ih (processEvent C { eng with eventQueue := rest } ss es e).1
            (processEvent C { eng with eventQueue := rest } ss es e).2.1
            (processEvent C { eng with eventQueue := rest } ss es e).2.2
            (sorted_processEvent σs σe C { eng with eventQueue := rest } ss es e hrest)
            p hmem

/-! ## Claim C1 -/

def eventKey (e : Event) : ℤ × ℕ × ℕ := (e.timestamp, e.priority, e.seq)

def keyLE (x y : ℤ × ℕ × ℕ) : Prop :=
  x.1 < y.1 ∨ (x.1 = y.1 ∧ (x.2.1 < y.2.1 ∨ (x.2.1 = y.2.1 ∧ x.2.2 ≤ y.2.2)))

instance (x y : ℤ × ℕ × ℕ) : Decidable (keyLE x y) := by
  unfold keyLE
  infer_instance

def evC1d : Event := { mkEvent .tick 30 with price := some 100 }

/-- C1 counterexample: with funding rate 0.01 and interval 10 ms, ticks at
t = 0 and t = 5, a buy of 1 at t = 2 and a final tick at t = 30, the market
event at t = 30 back-fills the funding boundaries at t = 15 and t = 25, which
are therefore dispatched *after* it: the dispatched
`(timestamp, priority, sequence)` keys come out as (0,10,0), (2,40,1),
(5,10,2), (30,10,3), (15,60,4), (25,60,5), and the pair at positions 3 and 4
violates the claimed global key ordering of the dispatch sequence. -/
theorem scheduler_ordering_counterexample :
    ¬ List.Pairwise eventKeyLE
      ((runModel trivialCollab 1 cfgC8 [evC8a, evC8b, evC8c, evC1d] 10).trace.map
        Prod.fst) := by
  intro h
  have hkeys : (((runModel trivialCollab 1 cfgC8 [evC8a, evC8b, evC8c, evC1d] 10).trace.map
        Prod.fst).map eventKey)
      = [(0, 10, 0), (2, 40, 1), (5, 10, 2), (30, 10, 3), (15, 60, 4), (25, 60, 5)] := by
    norm_num [runModel, runLoop, enqueueEvents, normalizeEvent, EVENT_PRIORITY, resetEngine,
      cfgC8, evC8a, evC8b, evC8c, evC1d, mkEvent, mkLogEntry, processEvent, handleMarketEvent,
      handleOrderFilled, handleFundingPayment, createContext, trivialCollab,
      queueFundingEventsUntil, queueFundingLoop, fundingEvent, queueRiskEvents, updateEquity,
      getRiskPrice, isMarginMarket, calculateUnrealizedPnl, List.insertionSort,
      List.orderedInsert, eventLE, compareEvents, ordersSet, jsAbs, jsign, Option.or,
      buyNeSell, eventKey]
  have h2 : List.Pairwise keyLE
      (((runModel trivialCollab 1 cfgC8 [evC8a, evC8b, evC8c, evC1d] 10).trace.map
        Prod.fst).map eventKey) :=
    List.Pairwise.map eventKey (fun a b hab => hab) h
  rw [hkeys] at h2
  exact absurd h2 (by decide)

/-- C1 (amended): the scheduler's ordering guarantee is relative to the pending
queue, not global: in every run, every dispatched event's
`(timestamp, priority, sequence)` key is ≤ the key of every event still pending
in the queue at the moment of its dispatch (the queue is re-sorted by
`compareEvents` at every enqueue).  The global pairwise claim fails because
`queueFundingEventsUntil` may enqueue catch-up funding events with past
timestamps after later-keyed events have already been dispatched. -/
theorem scheduler_pending_order_spec (σs σe : Type) (C : Collab σs σe) (ctorSeed : ℤ)
    (cfg : Config) (inputs : List Event) (fuel : ℕ) :
    ∀ p ∈ (runModel C ctorSeed cfg inputs fuel).trace, ∀ e2 ∈ p.2, eventKeyLE p.1 e2 := by
  intro p hp e2 he2
  exact runLoop_trace_pending σs σe C fuel (enqueueEvents (resetEngine ctorSeed cfg) inputs)
    C.stratInit C.execInit (sorted_enqueueEvents _ _) p hp e2 he2

def cfgC1w : Config := ⟨.spot, some 0, none, 0, 0, 0, 0, 0⟩

def evC1w1 : Event := { mkEvent .tick 1 with price := some 10 }

def evC1w2 : Event := { mkEvent .tick 4 with price := some 11 }

def evC1n1 : Event := { mkEvent .tick 1 with priority := 10, price := some 10 }

def evC1n2 : Event := { mkEvent .tick 4 with priority := 10, seq := 1, price := some 11 }

theorem scheduler_pending_order_spec_witness :
    (evC1n1, [evC1n2]) ∈ (runModel trivialCollab 1 cfgC1w [evC1w1, evC1w2] 3).trace
    ∧ eventKeyLE evC1n1 evC1n2 := by
  have htr : (runModel trivialCollab 1 cfgC1w [evC1w1, evC1w2] 3).trace
      = [(evC1n1, [evC1n2]), (evC1n2, [])] := by
    norm_num [runModel, runLoop, enqueueEvents, normalizeEvent, EVENT_PRIORITY, resetEngine,
      cfgC1w, evC1w1, evC1w2, evC1n1, evC1n2, mkEvent, processEvent, handleMarketEvent,
      createContext, trivialCollab, queueFundingEventsUntil, queueRiskEvents, updateEquity,
      getRiskPrice, isMarginMarket, calculateUnrealizedPnl, List.insertionSort,
      List.orderedInsert, eventLE, compareEvents, jsAbs, Option.or]
  have hmem : (evC1n1, [evC1n2]) ∈ (runModel trivialCollab 1 cfgC1w [evC1w1, evC1w2] 3).trace := by
    rw [htr]
    exact List.mem_cons_self _ _
  exact ⟨hmem, scheduler_pending_order_spec Unit Unit trivialCollab 1 cfgC1w [evC1w1, evC1w2] 3
    (evC1n1, [evC1n2]) hmem evC1n2 (List.mem_singleton.mpr rfl)⟩
